import Mathlib

/-!
Verification of the command-understanding core of the JARVIS voice assistant.

The development shallowly embeds the Python sources of the repository:

* `src/core/brain.py`   — intent classification (`Brain.classify_intent`,
  `Brain._match_patterns`, `Brain._check_app_open`, `Brain._extract_entities`,
  `Brain._get_category`, the static pattern catalog);
* `src/core/dispatcher.py` — the skill registry and dispatch loop
  (`Dispatcher.register`, `Dispatcher.dispatch`, `Dispatcher.unregister`);
* `src/core/memory.py`  — the persistent key-value store (`Memory.set`,
  `Memory.get`, `Memory.delete`, `Memory.exists`) together with its typed
  textual serialization (Python `str` plus `json.dumps` and `json.loads`);
* `src/core/engine.py`  — the command handling step of the orchestration
  engine (`Engine._handle_command`) and the speech-output queue of
  `src/audio/tts.py` (`speak`, `clear_queue`).

Modelling conventions, used throughout:

* Python strings are Lean `String`s (lists of Unicode scalar values).
  The string helpers `lower`, `strip`, `split` are modelled on the ASCII
  range, which covers every constant of the repository; Python additionally
  case-maps and treats as whitespace some further Unicode characters.
* Python floats are carried by their `str`/`repr` rendering (a `String`),
  relying on the CPython guarantee that `repr` is injective on floats and
  that `float(repr(v)) == v`.  No floating-point arithmetic occurs in the
  modelled code paths.
* Scores are rationals; all score constants of the code are integers, and
  the one real multiplication (the rapidfuzz scaling by 0.7) is kept
  symbolic through a scorer parameter, since `rapidfuzz` is an external
  library.  Time instants are integers (seconds); Python datetimes are
  finer grained, but only their order matters to the modelled code.
* Fallible steps return `Option`; a `none` from `Memory.get` models a call
  that never returns (the nested `delete` re-acquires the store lock, which
  is a plain non-reentrant `threading.Lock`).
-/

namespace Jarvis

set_option maxRecDepth 100000

/-! ### Python string primitives (ASCII model) -/

/-- Python whitespace for `str.strip` and `str.split` (the `\s` class):
space, tab, newline, carriage return, vertical tab, form feed. -/
def isPySpace (c : Char) : Bool :=
  c = ' ' || c = '\x09' || c = '\x0a' || c = '\x0d' || c = '\x0b' || c = '\x0c'

/-- Python `str.lower`, modelled on the ASCII letters. -/
def pyLowerChar (c : Char) : Char :=
  if 65 ≤ c.toNat && c.toNat ≤ 90 then Char.ofNat (c.toNat + 32) else c

/-- Python `str.lower` over a whole string. -/
def pyLower (s : String) : String :=
  String.mk (s.data.map pyLowerChar)

/-- Python `str.strip` with no argument: drop leading and trailing whitespace. -/
def pyStrip (s : String) : String :=
  String.mk (((s.data.dropWhile isPySpace).reverse.dropWhile isPySpace).reverse)

/-- Worker for `pySplit`: accumulates the current word (reversed). -/
def pySplitAux : List Char → List Char → List String
  | [], acc => if acc.isEmpty then [] else [String.mk acc.reverse]
  | c :: cs, acc =>
    if isPySpace c then
      if acc.isEmpty then pySplitAux cs [] else String.mk acc.reverse :: pySplitAux cs []
    else pySplitAux cs (c :: acc)

/-- Python `str.split` with no argument: split on whitespace runs, no empty parts. -/
def pySplit (s : String) : List String :=
  pySplitAux s.data []

/-- Python substring containment, `needle in hay`. -/
def listContains : List Char → List Char → Bool
  | [], needle => needle.isEmpty
  | c :: t, needle => needle.isPrefixOf (c :: t) || listContains t needle

/-- Python `needle in hay` on strings. -/
def strContains (hay needle : String) : Bool :=
  listContains hay.data needle.data

/-- Worker for `pySplitOnce`: find the first occurrence of `needle`,
returning the part before it (reversed) and the part after it. -/
def pySplitOnceAux (needle : List Char) : List Char → List Char → Option (List Char × List Char)
  | [], acc => if needle.isEmpty then some (acc, []) else none
  | c :: t, acc =>
    if needle.isPrefixOf (c :: t) then some (acc, (c :: t).drop needle.length)
    else pySplitOnceAux needle t (c :: acc)

/-- Python `s.split(needle, 1)` when `needle` occurs in `s`: the parts before
and after the first occurrence.  `none` when `needle` does not occur. -/
def pySplitOnce (s needle : String) : Option (String × String) :=
  match pySplitOnceAux needle.data s.data [] with
  | some (before, after) => some (String.mk before.reverse, String.mk after)
  | none => none

/-! ### Intent data model (`src/core/brain.py`, `IntentCategory`, `Intent`) -/

/-- The closed category enum of `brain.py`. -/
inductive IntentCategory where
  | SYSTEM
  | APPLICATION
  | WEB
  | TIME_DATE
  | CONVERSATION
  | MEMORY
  | VOLUME
  | UNKNOWN
deriving DecidableEq, Repr

/-- An extracted entity value: the code stores strings (`app_name`, `query`,
`content`) and one integer (`level` of `volume.set`). -/
inductive EntityVal where
  | es (s : String)
  | en (n : Nat)
deriving DecidableEq, Repr

/-- The `Intent` dataclass of `brain.py`. -/
structure Intent where
  category : IntentCategory
  action : String
  confidence : ℚ
  entities : List (String × EntityVal)
  rawText : String
deriving DecidableEq, Repr

/-! ### The static pattern catalog (`Brain._build_intent_patterns`) -/

/-- The intent pattern database, exactly as built by
`Brain._build_intent_patterns`, in insertion order. -/
def intentPatterns : List (String × List String) :=
  [ ("system.shutdown",
      ["shutdown", "shut down", "power off", "turn off computer",
       "shutdown computer", "shut down the computer"]),
    ("system.restart",
      ["restart", "reboot", "restart computer", "reboot computer",
       "restart the computer"]),
    ("system.lock",
      ["lock", "lock computer", "lock screen", "lock the computer"]),
    ("system.screenshot",
      ["screenshot", "take screenshot", "capture screen", "screen capture",
       "take a screenshot"]),
    ("volume.up",
      ["volume up", "increase volume", "louder", "turn up volume",
       "raise volume", "turn it up"]),
    ("volume.down",
      ["volume down", "decrease volume", "quieter", "turn down volume",
       "lower volume", "turn it down"]),
    ("volume.mute",
      ["mute", "mute volume", "silence", "mute audio", "mute sound"]),
    ("volume.unmute",
      ["unmute", "unmute volume", "unmute audio"]),
    ("volume.set",
      ["set volume to", "volume to", "set volume"]),
    ("app.open",
      ["open", "launch", "start", "run", "execute", "fire up"]),
    ("app.close",
      ["close", "quit", "exit", "kill", "terminate", "end"]),
    ("web.search",
      ["search", "google", "look up", "find", "search for",
       "search the web for", "google search"]),
    ("web.open",
      ["open website", "go to", "visit", "open site", "browse to",
       "navigate to"]),
    ("web.youtube",
      ["play on youtube", "youtube", "search youtube", "play video",
       "watch"]),
    ("time_date.time",
      ["what time", "current time", "tell me the time", "what's the time",
       "time please", "what is the time", "time", "the time", "whats the time",
       "tell time", "show time", "give me the time", "what time is it"]),
    ("time_date.date",
      ["what date", "current date", "today's date", "what's the date",
       "what day is it", "what is today", "what's today's date",
       "whats today", "today date", "date today", "date", "the date",
       "tell me the date", "what day", "today"]),
    ("memory.remember",
      ["remember", "remember that", "store", "save", "note that",
       "keep in mind"]),
    ("memory.recall",
      ["recall", "what do you remember", "what did i tell you",
       "do you remember", "what do you know about"]),
    ("memory.forget",
      ["forget", "forget that", "delete", "remove from memory"]),
    ("conversation.greeting",
      ["hello", "hi", "hey", "good morning", "good afternoon",
       "good evening", "howdy", "what's up"]),
    ("conversation.farewell",
      ["goodbye", "bye", "see you", "farewell", "good night",
       "i'm leaving", "that's all"]),
    ("conversation.thanks",
      ["thank you", "thanks", "appreciate it", "cheers"]),
    ("conversation.how_are_you",
      ["how are you", "how do you feel", "how's it going",
       "what's up", "how are things"]),
    ("conversation.who_are_you",
      ["who are you", "what are you", "what's your name",
       "tell me about yourself", "introduce yourself"]),
    ("conversation.capabilities",
      ["what can you do", "help", "what are your capabilities",
       "what do you do", "show me what you can do"]),
    ("conversation.joke",
      ["tell me a joke", "joke", "make me laugh", "say something funny"]),
    ("conversation.stop",
      ["stop", "cancel", "nevermind", "never mind", "abort",
       "shut up", "be quiet", "stop talking"]) ]

/-- The short greeting guard list of `classify_intent`. -/
def greetingWords : List String := ["hi", "hello", "hey", "howdy"]

/-! ### Pattern scoring (`Brain._match_patterns`) -/

/-- Whether the fuzzy matcher is available, and if so its scorer: the model of
`rapidfuzz.process.extractOne(text, patterns, scorer=fuzz.partial_ratio)`,
whose best raw score is an arbitrary scorer value (an external library).
`basic` is the `FUZZY_AVAILABLE = False` substring fallback. -/
inductive FuzzyMode where
  | basic
  | rapid (score : String → List String → ℚ)

/-- The inner word loop of `_match_patterns`: the first text word that is a
pattern word returns 95 (short input, word equals the whole text) or 90
(non-short input); otherwise the loop continues. -/
def wordLoop (text : String) (isShort : Bool) (pws : List String) : List String → Option ℚ
  | [] => none
  | tw :: rest =>
    if pws.contains tw then
      if isShort then
        if tw = text then some 95 else wordLoop text isShort pws rest
      else some 90
    else wordLoop text isShort pws rest

/-- The per-pattern rules of `_match_patterns`, in code order: exact phrase
equality gives 100, a shared word gives 95/90 via `wordLoop`, a multi-word
pattern whose every word occurs among the text words gives 95. -/
def patternScore (text : String) (textWords : List String) (isShort : Bool)
    (p : String) : Option ℚ :=
  let pl := pyLower p
  let pws := pySplit pl
  if pl = text then some 100
  else
    match wordLoop text isShort pws textWords with
    | some q => some q
    | none =>
      if pws.length > 1 && pws.all (fun w => textWords.contains w) then some 95
      else none

/-- `Brain._match_patterns(text, patterns)`: scan the patterns with
`patternScore`; if none fires, short inputs score 0, longer inputs fall to
the fuzzy scorer (scaled by 0.7 and capped at 70) or, without rapidfuzz,
to a substring containment test worth 65. -/
def matchPatterns (mode : FuzzyMode) (textRaw : String) (patterns : List String) : ℚ :=
  let text := pyStrip (pyLower textRaw)
  let textWords := pySplit text
  let isShort := decide (textWords.length ≤ 2) && decide (text.length ≤ 10)
  match patterns.findSome? (patternScore text textWords isShort) with
  | some q => q
  | none =>
    if isShort then 0
    else
      match mode with
      | .rapid f => if patterns.isEmpty then 0 else min (f text patterns * (7 / 10)) 70
      | .basic => if patterns.any (fun p => strContains text p) then 65 else 0

/-- The best-match loop of `classify_intent`: walk the catalog in order,
keeping the first key whose score strictly exceeds the best so far. -/
def bestFold (mode : FuzzyMode) (textLower : String) :
    List (String × List String) → Option String × ℚ → Option String × ℚ
  | [], best => best
  | kp :: rest, best =>
    bestFold mode textLower rest
      (if matchPatterns mode textLower kp.2 > best.2
       then (some kp.1, matchPatterns mode textLower kp.2) else best)

/-- The best (key, score) over the whole catalog, starting from `None` at 0. -/
def bestScan (mode : FuzzyMode) (textLower : String) : Option String × ℚ :=
  bestFold mode textLower intentPatterns (none, 0)

/-- `Brain._get_category`: the fixed category lookup table, `UNKNOWN` on a
miss. -/
def getCategory (s : String) : IntentCategory :=
  if s = "system" then .SYSTEM
  else if s = "app" then .APPLICATION
  else if s = "web" then .WEB
  else if s = "time" then .TIME_DATE
  else if s = "date" then .TIME_DATE
  else if s = "time_date" then .TIME_DATE
  else if s = "conversation" then .CONVERSATION
  else if s = "memory" then .MEMORY
  else if s = "volume" then .VOLUME
  else .UNKNOWN

/-- `best_match.split(".", 1)`: the part before and after the first dot.
Catalog keys always contain a dot; on a dotless string the model returns the
whole string and an empty action. -/
def splitDot (s : String) : String × String :=
  match pySplitOnce s "." with
  | some (a, b) => (a, b)
  | none => (s, "")

/-! ### Entity extraction (`Brain._extract_entities`) -/

/-- The model of `re.sub(r'\s+(please|now|for me)$', '', s)`: when `s` ends
with one of the filler words preceded by at least one whitespace character,
drop the word and the whole whitespace run before it. -/
def stripFillerWith (s : String) (w : String) : Option String :=
  let rev := s.data.reverse
  if w.data.reverse.isPrefixOf rev then
    let rest := rev.drop w.length
    let ws := rest.takeWhile isPySpace
    if ws.isEmpty then none
    else some (String.mk (rest.dropWhile isPySpace).reverse)
  else none

/-- Try each filler alternative; at most one can be a suffix. -/
def stripFiller (s : String) : String :=
  match stripFillerWith s "please" with
  | some r => r
  | none =>
    match stripFillerWith s "now" with
    | some r => r
    | none =>
      match stripFillerWith s "for me" with
      | some r => r
      | none => s

/-- The model of `re.sub(r'^(on youtube|video)\s*', '', q)`: drop a leading
"on youtube" or "video" together with the following whitespace run. -/
def stripYtPrefix (q : String) : String :=
  if "on youtube".data.isPrefixOf q.data then
    String.mk ((q.data.drop 10).dropWhile isPySpace)
  else if "video".data.isPrefixOf q.data then
    String.mk ((q.data.drop 5).dropWhile isPySpace)
  else q

/-- The model of `re.findall(r'\d+', text)[0]` (as used by `volume.set`):
the first maximal digit run, as a number. -/
def firstDigitRun : List Char → Option Nat
  | [] => none
  | c :: t =>
    if c.isDigit then
      some (((c :: t).takeWhile Char.isDigit).foldl (fun a d => a * 10 + (d.toNat - 48)) 0)
    else firstDigitRun t

/-- For trigger lists: split `text` on the first trigger that occurs in it
and return the trimmed remainder (the part after the trigger). -/
def afterFirstTrigger (text : String) : List String → Option String
  | [] => none
  | trig :: rest =>
    if strContains text trig then
      match pySplitOnce text trig with
      | some (_, after) => some (pyStrip after)
      | none => none
    else afterFirstTrigger text rest

/-- `Brain._extract_entities(text, intent_key)`, rule for rule. -/
def extractEntities (text : String) (intentKey : String) : List (String × EntityVal) :=
  if intentKey = "app.open" then
    match afterFirstTrigger text ["open", "launch", "start", "run"] with
    | some appName => [("app_name", .es (stripFiller appName))]
    | none => []
  else if intentKey = "app.close" then
    match afterFirstTrigger text ["close", "quit", "exit", "kill"] with
    | some appName => [("app_name", .es appName)]
    | none => []
  else if "web.search".data.isPrefixOf intentKey.data then
    match afterFirstTrigger text ["search for", "search", "google", "look up", "find"] with
    | some q => [("query", .es q)]
    | none => []
  else if intentKey = "web.youtube" then
    match afterFirstTrigger text ["play", "youtube", "watch"] with
    | some q => [("query", .es (stripYtPrefix q))]
    | none => []
  else if intentKey = "volume.set" then
    match firstDigitRun text.data with
    | some n => [("level", .en n)]
    | none => []
  else if intentKey = "memory.remember" then
    match afterFirstTrigger text ["remember that", "remember", "note that"] with
    | some c => [("content", .es c)]
    | none => []
  else if intentKey = "memory.recall" then
    match afterFirstTrigger text ["about", "remember"] with
    | some q => [("query", .es q)]
    | none => []
  else []

/-! ### The app-open heuristic (`Brain._check_app_open`) -/

/-- Web-based applications that should open in a browser (the allowlist that
vetoes the desktop heuristic). -/
def webApps : List String :=
  ["youtube", "netflix", "spotify web", "facebook", "instagram",
   "twitter", "whatsapp", "telegram", "gmail", "google drive",
   "github", "linkedin", "reddit", "amazon", "flipkart",
   "chatgpt", "google", "wikipedia", "stackoverflow"]

/-- Common desktop application names, in scan order. -/
def desktopApps : List String :=
  ["chrome", "firefox", "edge", "browser",
   "notepad", "calculator", "word", "excel", "powerpoint",
   "spotify", "discord", "vscode", "code",
   "file explorer", "explorer", "command prompt", "cmd",
   "powershell", "terminal", "task manager", "settings",
   "control panel", "paint", "photos", "camera", "teams",
   "zoom", "vlc", "media player", "snipping tool"]

/-- The open-context trigger substrings of `_check_app_open`. -/
def openTriggers : List String := ["open", "launch", "start", "run"]

/-- The desktop-app scan loop of `_check_app_open`. -/
def appLoop (text : String) : List String → Option String
  | [] => none
  | a :: rest =>
    if strContains text a then
      if openTriggers.any (fun t => strContains text t) then some a
      else appLoop text rest
    else appLoop text rest

/-- `Brain._check_app_open(text)`: any web-app substring vetoes; otherwise the
first desktop-app substring, provided an open trigger occurs somewhere in
the text. -/
def checkAppOpen (text : String) : Option String :=
  if webApps.any (fun w => strContains text w) then none
  else appLoop text desktopApps

/-! ### Classification (`Brain.classify_intent`) -/

/-- The branch of `classify_intent` taken when no catalog key clears the
threshold: the app-open heuristic at confidence 85, else the
conversation/general catch-all at 50. -/
def fallbackClassify (textLower rawText : String) : Intent :=
  match checkAppOpen textLower with
  | some app => ⟨.APPLICATION, "open", 85, [("app_name", .es app)], rawText⟩
  | none => ⟨.CONVERSATION, "general", 50, [], rawText⟩

/-- The tail of `classify_intent`: accept the best catalog key when one was
found and its score clears the threshold, otherwise fall back to the
heuristic/catch-all branch. -/
def thresholdBranch (threshold : ℚ) (textLower rawText : String) :
    Option String × ℚ → Intent
  | (some key, score) =>
    if score ≥ threshold then
      ⟨getCategory (splitDot key).1, (splitDot key).2, score,
        extractEntities textLower key, rawText⟩
    else fallbackClassify textLower rawText
  | (none, _) => fallbackClassify textLower rawText

/-- `Brain.classify_intent(text)` with the confidence threshold of the
constructor (config default 65). -/
def classifyIntent (mode : FuzzyMode) (threshold : ℚ) (text : String) : Intent :=
  let textLower := pyStrip (pyLower text)
  if textLower = "" then
    ⟨.UNKNOWN, "unknown", 0, [], text⟩
  else if greetingWords.contains textLower
      || ((pySplit textLower).length = 1 && greetingWords.contains textLower) then
    ⟨.CONVERSATION, "greeting", 100, [], text⟩
  else
    thresholdBranch threshold textLower text (bestScan mode textLower)

/-! ### Handler results and the dispatcher (`src/core/dispatcher.py`) -/

/-- A handler result as the engine inspects it: a plain string, a dict of
string fields (the skills return dicts such as one with a "response" text),
or anything else (`None` and the like). -/
inductive HRes where
  | rstr (s : String)
  | rdict (pairs : List (String × String))
  | rnone
deriving DecidableEq, Repr

/-- A handler callable: it returns a result or raises an error with message
`str(e)`. -/
def HandlerFn : Type := Intent → Except String HRes

/-- The `SkillHandler` dataclass. -/
structure SkillHandler where
  name : String
  category : IntentCategory
  actions : List String
  handler : HandlerFn
  description : String

/-- The `Dispatcher` state: the handler dict, the per-category name index
(both insertion-ordered), and the optional fallback. -/
structure DispatcherState where
  handlers : List (String × SkillHandler)
  categoryHandlers : List (IntentCategory × List String)
  fallback : Option HandlerFn

/-- Lookup in an insertion-ordered dict. -/
def assocGet {α β : Type} [DecidableEq α] : List (α × β) → α → Option β
  | [], _ => none
  | (k, v) :: t, key => if k = key then some v else assocGet t key

/-- Update in an insertion-ordered dict: replace in place, else append
(Python dict assignment). -/
def assocSet {α β : Type} [DecidableEq α] : List (α × β) → α → β → List (α × β)
  | [], key, val => [(key, val)]
  | (k, v) :: t, key, val =>
    if k = key then (key, val) :: t else (k, v) :: assocSet t key val

/-- `Dispatcher.register(name, category, actions, handler, description)`:
store the skill under its name, then append the name to the category index
(creating the category list when absent). -/
def register (st : DispatcherState) (name : String) (category : IntentCategory)
    (actions : List String) (handler : HandlerFn) (description : String) :
    DispatcherState :=
  let skill : SkillHandler := ⟨name, category, actions, handler, description⟩
  { st with
    handlers := assocSet st.handlers name skill
    categoryHandlers :=
      match assocGet st.categoryHandlers category with
      | none => assocSet st.categoryHandlers category [name]
      | some l => assocSet st.categoryHandlers category (l ++ [name]) }

/-- `Dispatcher.set_fallback(handler)`. -/
def setFallback (st : DispatcherState) (handler : HandlerFn) : DispatcherState :=
  { st with fallback := some handler }

/-- `Dispatcher.unregister(name)`: remove the name from its category index
(first occurrence, as `list.remove`) and delete the handler entry. -/
def listRemoveFirst {α : Type} [DecidableEq α] : List α → α → List α
  | [], _ => []
  | x :: t, a => if x = a then t else x :: listRemoveFirst t a

/-- Delete a key from an insertion-ordered dict (Python `del`). -/
def assocDel {α β : Type} [DecidableEq α] : List (α × β) → α → List (α × β)
  | [], _ => []
  | (k, v) :: t, key => if k = key then t else (k, v) :: assocDel t key

/-- `Dispatcher.unregister`, a no-op when the name is not registered. -/
def unregister (st : DispatcherState) (name : String) : DispatcherState :=
  match assocGet st.handlers name with
  | none => st
  | some skill =>
    { st with
      handlers := assocDel st.handlers name
      categoryHandlers :=
        match assocGet st.categoryHandlers skill.category with
        | none => st.categoryHandlers
        | some l => assocSet st.categoryHandlers skill.category (listRemoveFirst l name) }

/-- The dispatch outcome dict: `success=True` carries the handler name and
result; `success=False` carries an optional handler name and the error
text. -/
inductive DOutcome where
  | ok (handler : String) (result : HRes)
  | fail (handler : Option String) (error : String)
deriving DecidableEq, Repr

/-- The category index entry consulted by `dispatch`
(`self._category_handlers.get(intent.category, [])`). -/
def handlersFor (st : DispatcherState) (cat : IntentCategory) : List String :=
  (assocGet st.categoryHandlers cat).getD []

/-- Whether a skill handles the action:
`intent.action in skill.actions or "*" in skill.actions`. -/
def matchesAction (sk : SkillHandler) (action : String) : Bool :=
  sk.actions.contains action || sk.actions.contains "*"

/-- Result of the handler scan loop of `dispatch`. -/
inductive LoopRes where
  | crash
  | unmatched
  | done (out : DOutcome) (invoked : List String)

/-- The handler loop of `dispatch`: walk the category index in order; the
first matching skill is invoked (its exception captured); a name missing
from the handler dict raises an uncaught `KeyError` (`crash`). -/
def dispatchLoop (st : DispatcherState) (intent : Intent) : List String → LoopRes
  | [] => .unmatched
  | name :: rest =>
    match assocGet st.handlers name with
    | none => .crash
    | some sk =>
      if matchesAction sk intent.action then
        match sk.handler intent with
        | .ok r => .done (.ok name r) [name]
        | .error e => .done (.fail (some name) e) [name]
      else dispatchLoop st intent rest

/-- `Dispatcher.dispatch(intent)`: the outcome dict together with the list of
handler invocations this dispatch performed; `none` models the uncaught
`KeyError` of an inconsistent registry.  A failing fallback is logged and
falls through to the final "No handler found" return. -/
def dispatch (st : DispatcherState) (intent : Intent) : Option (DOutcome × List String) :=
  match dispatchLoop st intent (handlersFor st intent.category) with
  | .crash => none
  | .done out invoked => some (out, invoked)
  | .unmatched =>
    match st.fallback with
    | some fb =>
      match fb intent with
      | .ok r => some (.ok "fallback" r, ["fallback"])
      | .error _ => some (.fail none "No handler found", ["fallback"])
    | none => some (.fail none "No handler found", [])

/-- Registry well-formedness: every name in the category index is present in
the handler dict (true of every state reachable by `register`/`unregister`). -/
def wfDispatcher (st : DispatcherState) : Bool :=
  st.categoryHandlers.all (fun p => p.2.all (fun n => (assocGet st.handlers n).isSome))

/-- Specification-side reading of the scan: the first (name, skill) pair of
the category index, in registration order, whose action set matches. -/
def firstMatchingH (st : DispatcherState) (intent : Intent) : Option (String × SkillHandler) :=
  ((handlersFor st intent.category).filterMap
      (fun n => (assocGet st.handlers n).map (fun sk => (n, sk)))).find?
    (fun p => matchesAction p.2 intent.action)

/-- The outcome of invoking the skill registered under `name`. -/
def runNamed (name : String) (sk : SkillHandler) (intent : Intent) : DOutcome :=
  match sk.handler intent with
  | .ok r => .ok name r
  | .error e => .fail (some name) e

/-! ### Speech output queue (`src/audio/tts.py`) and the engine command step
(`Engine._handle_command` of `src/core/engine.py`) -/

/-- The engine state enum of `engine.py`. -/
inductive EngineState where
  | STOPPED
  | STARTING
  | RUNNING
  | LISTENING
  | PROCESSING
  | SPEAKING
  | STOPPING
deriving DecidableEq, Repr

/-- `TTSEngine.speak(text)` without blocking: empty text is dropped, other
text is appended to the FIFO speech queue. -/
def ttsEnqueue (queue : List String) (text : String) : List String :=
  if text = "" then queue else queue ++ [text]

/-- The engine state the command step works on: current state, the pending
speech-output queue, the conversation log (role, content, intent tag) and
the dispatcher registry. -/
structure EngineM where
  state : EngineState
  ttsQueue : List String
  conv : List (String × String × Option String)
  disp : DispatcherState

/-- The response string derivation of the success branch of
`_handle_command`: prefer a non-empty "response" field of a dict result,
else a bare string result, else the generated response. -/
def responseOf (r : HRes) (generated : String) : String :=
  match r with
  | .rdict pairs =>
    match assocGet pairs "response" with
    | some v => if v = "" then generated else v
    | none => generated
  | .rstr s => s
  | .rnone => generated

/-- `Engine._handle_command(command)`.  Besides the updated engine state the
model returns whether the Dispatcher was invoked for this command.
`genResp` models `Brain.generate_response` (it draws random phrases) and
`notUnderstood` the random "not understood" response; both are parameters
because their text is drawn from `random.choice`.  A `dispatch` crash
(inconsistent registry) is caught by the surrounding `except`, which speaks
a fixed apology. -/
def handleCommand (mode : FuzzyMode) (threshold : ℚ)
    (genResp : Intent → DOutcome → String) (notUnderstood : String)
    (em : EngineM) (command : String) : EngineM × Bool :=
  let em1 : EngineM :=
    { em with
      state := .PROCESSING
      conv := em.conv ++ [("user", command, none)] }
  let intent := classifyIntent mode threshold command
  if intent.action = "stop" then
    ({ em1 with ttsQueue := ttsEnqueue [] "Okay.", state := .LISTENING }, false)
  else
    match dispatch em1.disp intent with
    | none =>
      ({ em1 with
          ttsQueue := ttsEnqueue em1.ttsQueue "I encountered an error processing that request."
          state := .LISTENING }, true)
    | some (out, _) =>
      match out with
      | .ok _ r =>
        let response := responseOf r (genResp intent out)
        ({ em1 with
            ttsQueue := ttsEnqueue em1.ttsQueue response
            conv := em1.conv ++ [("assistant", response, some intent.action)]
            state := .LISTENING }, true)
      | .fail _ _ =>
        let response :=
          if intent.category = .UNKNOWN then notUnderstood else genResp intent out
        ({ em1 with
            ttsQueue := ttsEnqueue em1.ttsQueue response
            state := .LISTENING }, true)

/-! ### Python values stored by the memory system (`src/core/memory.py`)

A value supported by `Memory.set` is a string, a number (int or float), a
bool, a list or a dict; `json.loads` can additionally produce `None` from
`null`.  A float is represented by its Python `repr` rendering. -/

mutual
inductive PyVal where
  | vstr (s : String)
  | vint (n : Int)
  | vfloat (r : String)
  | vbool (b : Bool)
  | vnone
  | vlist (xs : PyList)
  | vdict (xs : PyPairs)
inductive PyList where
  | nil
  | cons (hd : PyVal) (tl : PyList)
inductive PyPairs where
  | pnil
  | pcons (key : String) (val : PyVal) (tl : PyPairs)
end

deriving instance DecidableEq for PyVal, PyList, PyPairs
deriving instance Repr for PyVal, PyList, PyPairs

/-! ### Decimal integers: Python `str(int)` and `int(str)` -/

/-- Digit characters. -/
def digitChar (n : Nat) : Char := "0123456789".data.getD n '0'

/-- Decimal digits of `n`, least significant first (fuel-driven so that the
definition evaluates by kernel reduction). -/
def natToRevDigitsF : Nat → Nat → List Char
  | 0, _ => []
  | f + 1, n => if n < 10 then [digitChar n] else digitChar (n % 10) :: natToRevDigitsF f (n / 10)

/-- Canonical decimal rendering of a natural number. -/
def natDecimal (n : Nat) : List Char := (natToRevDigitsF (n + 1) n).reverse

/-- Python `str` of an int: canonical decimal with a leading minus sign. -/
def intDecimal (n : Int) : List Char :=
  if n < 0 then '-' :: natDecimal n.natAbs else natDecimal n.natAbs

/-- Digit-run evaluation; fails on a non-digit. -/
def digitsValAux : List Char → Nat → Option Nat
  | [], acc => some acc
  | c :: t, acc => if c.isDigit then digitsValAux t (acc * 10 + (c.toNat - 48)) else none

/-- Python `int(s)`, modelled for an optional sign followed by digits (the
reachable inputs are canonical decimals; Python additionally strips
whitespace and accepts underscores between digits). -/
def pyIntParse (s : String) : Option Int :=
  match s.data with
  | [] => none
  | c :: rest =>
    if c = '-' then
      if rest.isEmpty then none else (digitsValAux rest 0).map (fun n => -(n : Int))
    else if c = '+' then
      if rest.isEmpty then none else (digitsValAux rest 0).map (fun n => (n : Int))
    else (digitsValAux (c :: rest) 0).map (fun n => (n : Int))

/-! ### Float literals -/

/-- Split a leading digit run. -/
def spanDigits (l : List Char) : List Char × List Char :=
  (l.takeWhile Char.isDigit, l.dropWhile Char.isDigit)

/-- A signed exponent: `+` or `-` followed by one or more digits (the form
Python float `repr` emits). -/
def expOk : List Char → Bool
  | [] => false
  | c :: r =>
    if c = '+' ∨ c = '-' then
      let s := spanDigits r
      !s.1.isEmpty && s.2.isEmpty
    else false

/-- Mantissa and exponent of a float token after the optional sign. -/
def floatTokenOkAux (l : List Char) : Bool :=
  let s1 := spanDigits l
  if s1.1.isEmpty then false
  else
    match s1.2 with
    | [] => false
    | c2 :: r2 =>
      if c2 = '.' then
        let s2 := spanDigits r2
        if s2.1.isEmpty then false
        else
          match s2.2 with
          | [] => true
          | c4 :: r4 => if c4 = 'e' then expOk r4 else false
      else if c2 = 'e' then expOk r2
      else false

/-- The grammar of finite Python float `repr` strings:
`-? digits (. digits)? (e sign digits)?` with a dot or an exponent present.
Also the model of what `float(s)` accepts on the reachable inputs. -/
def floatTokenOk (s : String) : Bool :=
  match s.data with
  | [] => false
  | c :: rest => if c = '-' then floatTokenOkAux rest else floatTokenOkAux (c :: rest)

/-! ### JSON serialization (`json.dumps` with default options) -/

/-- Lowercase hexadecimal digit characters. -/
def hexDigitChar (n : Nat) : Char := "0123456789abcdef".data.getD n '0'

/-- Four fixed-width hexadecimal digits. -/
def hex4 (n : Nat) : List Char :=
  [hexDigitChar (n / 4096 % 16), hexDigitChar (n / 256 % 16),
   hexDigitChar (n / 16 % 16), hexDigitChar (n % 16)]

/-- The escaping of one character under `json.dumps` defaults
(`ensure_ascii=True`): quote and backslash escaped, the five short control
escapes, printable ASCII verbatim, everything else as `\uXXXX` (a surrogate
pair beyond the basic plane). -/
def jsonEscapeChar (c : Char) : List Char :=
  if c = '"' then ['\\', '"']
  else if c = '\\' then ['\\', '\\']
  else if c = '\x08' then ['\\', 'b']
  else if c = '\x0c' then ['\\', 'f']
  else if c = '\x0a' then ['\\', 'n']
  else if c = '\x0d' then ['\\', 'r']
  else if c = '\x09' then ['\\', 't']
  else if 32 ≤ c.toNat && c.toNat ≤ 126 then [c]
  else if c.toNat < 65536 then '\\' :: 'u' :: hex4 c.toNat
  else
    let v := c.toNat - 65536
    ('\\' :: 'u' :: hex4 (55296 + v / 1024)) ++ ('\\' :: 'u' :: hex4 (56320 + v % 1024))

/-- Escape a whole string body. -/
def escapeList : List Char → List Char
  | [] => []
  | c :: t => jsonEscapeChar c ++ escapeList t

mutual
/-- `json.dumps(v)` with the default separators `", "` and `": "`; nonfinite
floats are rendered `Infinity`, `-Infinity`, `NaN`. -/
def dumpVal : PyVal → List Char
  | .vstr s => '"' :: (escapeList s.data ++ ['"'])
  | .vint n => intDecimal n
  | .vfloat r =>
    if r = "inf" then "Infinity".data
    else if r = "-inf" then "-Infinity".data
    else if r = "nan" then "NaN".data
    else r.data
  | .vbool b => if b then "true".data else "false".data
  | .vnone => "null".data
  | .vlist xs => '[' :: (dumpList xs ++ [']'])
  | .vdict xs => '\x7b' :: (dumpPairs xs ++ ['\x7d'])
/-- List elements, comma-space separated. -/
def dumpList : PyList → List Char
  | .nil => []
  | .cons x .nil => dumpVal x
  | .cons x tl => dumpVal x ++ ',' :: ' ' :: dumpList tl
/-- Dict members, `"key": value`, comma-space separated. -/
def dumpPairs : PyPairs → List Char
  | .pnil => []
  | .pcons k v .pnil => '"' :: (escapeList k.data ++ '"' :: ':' :: ' ' :: dumpVal v)
  | .pcons k v tl =>
    '"' :: (escapeList k.data ++ '"' :: ':' :: ' ' :: (dumpVal v ++ ',' :: ' ' :: dumpPairs tl))
end

/-- `json.dumps` as a string. -/
def jsonDumps (v : PyVal) : String := String.mk (dumpVal v)

/-! ### JSON parsing (`json.loads`, on the canonical output of `dumps`)

The parser accepts exactly the canonical format `json.dumps` produces (one
space after `,` and `:`), the only JSON the repository ever feeds to
`json.loads`.  Lone surrogate escapes are refused (Lean characters are
scalar values; such input is unreachable from `dumps`). -/

/-- Hexadecimal digit value. -/
def hexVal (c : Char) : Option Nat :=
  if c.isDigit then some (c.toNat - 48)
  else if 97 ≤ c.toNat && c.toNat ≤ 102 then some (c.toNat - 87)
  else if 65 ≤ c.toNat && c.toNat ≤ 70 then some (c.toNat - 55)
  else none

/-- Prepend a parsed character. -/
def mapCons (c : Char) (o : Option (List Char × List Char)) :
    Option (List Char × List Char) :=
  o.bind (fun p => some (c :: p.1, p.2))

/-- Value of four hexadecimal digits. -/
def hexVal4 (a b c d : Char) : Option Nat :=
  match hexVal a, hexVal b, hexVal c, hexVal d with
  | some x, some y, some z, some w => some (((x * 16 + y) * 16 + z) * 16 + w)
  | _, _, _, _ => none

/-- Decode a single escape sequence after a backslash: the decoded character
and the remaining input.  A high-surrogate `\uXXXX` must be followed by a
low one (the pair denotes one character beyond the basic plane); lone
surrogate escapes are refused (unreachable from `dumps`, and Lean
characters are scalar values). -/
def escPairFin (n : Nat) (r3 : List Char) : Option Nat → Option (Char × List Char)
  | some m =>
    if 56320 ≤ m ∧ m ≤ 57343 then
      some (Char.ofNat (65536 + (n - 55296) * 1024 + (m - 56320)), r3)
    else none
  | none => none

/-- Decode the mandatory low-surrogate escape after a high surrogate. -/
def escPairTail (n : Nat) : List Char → Option (Char × List Char)
  | s1 :: s2 :: g1 :: g2 :: g3 :: g4 :: r3 =>
    if s1 = '\\' ∧ s2 = 'u' then escPairFin n r3 (hexVal4 g1 g2 g3 g4)
    else none
  | _ => none

/-- Interpret the value of a `\uXXXX` escape. -/
def escUTail (l : List Char) (n : Nat) : Option (Char × List Char) :=
  if 55296 ≤ n ∧ n ≤ 56319 then escPairTail n l
  else if 56320 ≤ n ∧ n ≤ 57343 then none
  else some (Char.ofNat n, l)

/-- Decode a `\uXXXX` escape (the input starts after `\u`). -/
def escUStep : List Char → Option (Char × List Char)
  | a :: b :: c :: d :: r2 =>
    match hexVal4 a b c d with
    | some n => escUTail r2 n
    | none => none
  | _ => none

def escStep : List Char → Option (Char × List Char)
  | [] => none
  | e :: r =>
    if e = '"' then some ('"', r)
    else if e = '\\' then some ('\\', r)
    else if e = '/' then some ('/', r)
    else if e = 'b' then some ('\x08', r)
    else if e = 'f' then some ('\x0c', r)
    else if e = 'n' then some ('\x0a', r)
    else if e = 'r' then some ('\x0d', r)
    else if e = 't' then some ('\x09', r)
    else if e = 'u' then escUStep r
    else none

/-- Parse a string body after the opening quote, unescaping, up to and past
the closing quote.  Fuel-driven; every step consumes at least one input
character, so `length + 1` fuel always suffices. -/
def parseStringBody : Nat → List Char → Option (List Char × List Char)
  | 0, _ => none
  | _ + 1, [] => none
  | fuel + 1, c :: rest =>
    if c = '"' then some ([], rest)
    else if c = '\\' then
      (escStep rest).bind (fun p => mapCons p.1 (parseStringBody fuel p.2))
    else mapCons c (parseStringBody fuel rest)

/-- Characters a number token is made of. -/
def numberChar (c : Char) : Bool :=
  c.isDigit || c = '-' || c = '+' || c = '.' || c = 'e' || c = 'E'

/-- Classify a number token the way the `json` scanner does: a fraction or
exponent makes it a float (kept as its token text), otherwise an int. -/
def parseNumberToken (tk : List Char) : Option PyVal :=
  if tk.isEmpty then none
  else if tk.contains '.' || tk.contains 'e' || tk.contains 'E' then
    some (.vfloat (String.mk tk))
  else (pyIntParse (String.mk tk)).map .vint

/-- The number-token branch of the scanner: take the maximal run of number
characters and classify it. -/
def parseNum (c : Char) (rest : List Char) : Option (PyVal × List Char) :=
  if numberChar c then
    (parseNumberToken ((c :: rest).takeWhile numberChar)).bind
      (fun v => some (v, (c :: rest).dropWhile numberChar))
  else none

/-- Skip the single canonical space after `,` and `:`. -/
def skipSp : List Char → List Char
  | [] => []
  | c :: r => if c = ' ' then r else c :: r

mutual
/-- Parse one JSON value.  The fuel decreases at each nesting or sibling
step; `jsonLoads` supplies more fuel than any input can consume. -/
def parseVal : Nat → List Char → Option (PyVal × List Char)
  | 0, _ => none
  | _ + 1, [] => none
  | fuel + 1, c :: rest =>
    if c = '"' then
      (parseStringBody (rest.length + 1) rest).bind
        (fun p => some (.vstr (String.mk p.1), p.2))
    else if c = '[' then
      if rest.head? = some ']' then some (.vlist .nil, rest.tail)
      else (parseElems fuel rest).bind (fun p => some (.vlist p.1, p.2))
    else if c = '\x7b' then
      if rest.head? = some '\x7d' then some (.vdict .pnil, rest.tail)
      else (parseMembers fuel rest).bind (fun p => some (.vdict p.1, p.2))
    else if c = 't' then
      if rest.take 3 = "rue".data then some (.vbool true, rest.drop 3) else none
    else if c = 'f' then
      if rest.take 4 = "alse".data then some (.vbool false, rest.drop 4) else none
    else if c = 'n' then
      if rest.take 3 = "ull".data then some (.vnone, rest.drop 3) else none
    else if c = 'I' then
      if rest.take 7 = "nfinity".data then some (.vfloat "inf", rest.drop 7)
      else none
    else if c = 'N' then
      if rest.take 2 = "aN".data then some (.vfloat "nan", rest.drop 2) else none
    else if c = '-' then
      if rest.take 8 = "Infinity".data then some (.vfloat "-inf", rest.drop 8)
      else parseNum c rest
    else parseNum c rest
/-- Parse the elements of a non-empty array, past the closing bracket. -/
def parseElems : Nat → List Char → Option (PyList × List Char)
  | 0, _ => none
  | fuel + 1, input =>
    (parseVal fuel input).bind (fun p =>
      if p.2.head? = some ']' then some (.cons p.1 .nil, p.2.tail)
      else if p.2.head? = some ',' then
        (parseElems fuel (skipSp p.2.tail)).bind
          (fun q => some (.cons p.1 q.1, q.2))
      else none)
/-- Parse the members of a non-empty object, past the closing brace. -/
def parseMembers : Nat → List Char → Option (PyPairs × List Char)
  | 0, _ => none
  | fuel + 1, input =>
    if input.head? = some '"' then
      (parseStringBody (input.tail.length + 1) input.tail).bind (fun kp =>
        if kp.2.head? = some ':' then
          (parseVal fuel (skipSp kp.2.tail)).bind (fun vp =>
            if vp.2.head? = some '\x7d' then
              some (.pcons (String.mk kp.1) vp.1 .pnil, vp.2.tail)
            else if vp.2.head? = some ',' then
              (parseMembers fuel (skipSp vp.2.tail)).bind (fun qp =>
                some (.pcons (String.mk kp.1) vp.1 qp.1, qp.2))
            else none)
        else none)
    else none
end

/-- `json.loads(s)`: parse one value consuming the whole input. -/
def jsonLoads (s : String) : Option PyVal :=
  match parseVal (s.length + 1) s.data with
  | some (v, []) => some v
  | _ => none

/-! ### The key-value store (`Memory.set` / `get` / `delete` / `exists`) -/

/-- The typed textual serialization of `Memory.set`: `(value_str, type_str)`
per the isinstance chain dict / list / bool / int-float / str. -/
def serializeVal (v : PyVal) : String × String :=
  match v with
  | .vdict _ => (String.mk (dumpVal v), "dict")
  | .vlist _ => (String.mk (dumpVal v), "list")
  | .vbool b => (if b then "True" else "False", "bool")
  | .vint n => (String.mk (intDecimal n), "number")
  | .vfloat r => (r, "number")
  | .vstr s => (s, "string")
  | .vnone => ("None", "string")

/-- One row of the `memory` table. -/
structure MemRow where
  value : String
  type : String
  expires : Option Int
deriving DecidableEq, Repr

/-- The `memory` table, keyed by the primary key. -/
structure MemDB where
  rows : List (String × MemRow)
deriving DecidableEq, Repr

/-- An empty store. -/
def memEmpty : MemDB := ⟨[]⟩

/-- `Memory.set(key, value, ttl_seconds)` at time `now`: serialize, record
`now + ttl` as the absolute expiry when `ttl_seconds` is given and truthy
(`None` and `0` both mean no expiry), and upsert the row. -/
def memSet (db : MemDB) (now : Int) (key : String) (v : PyVal) (ttl : Option Int) : MemDB :=
  let s := serializeVal v
  let expires : Option Int :=
    match ttl with
    | none => none
    | some t => if t = 0 then none else some (now + t)
  ⟨assocSet db.rows key ⟨s.1, s.2, expires⟩⟩

/-- The deserialization chain of `Memory.get`: json for dict/list rows, the
case-normalized comparison with "true" for bool rows, `float`/`int` by the
presence of a dot for number rows, the raw text otherwise.  A failing
conversion raises, and the surrounding `except` returns the default. -/
def deserializeRow (row : MemRow) (default : PyVal) : PyVal :=
  if row.type = "dict" || row.type = "list" then
    (jsonLoads row.value).getD default
  else if row.type = "bool" then
    .vbool (pyLower row.value = "true")
  else if row.type = "number" then
    if row.value.data.contains '.' then
      if floatTokenOk row.value then .vfloat row.value else default
    else
      match pyIntParse row.value with
      | some n => .vint n
      | none => default
  else .vstr row.value

/-- `Memory.get(key, default)` at time `now`.  `none` models a call that
never returns: on an expired row the code calls `self.delete(key)` while
already holding the store lock, and `threading.Lock` is not reentrant, so
the nested acquisition blocks forever. -/
def memGet (db : MemDB) (now : Int) (key : String) (default : PyVal) :
    Option (PyVal × MemDB) :=
  match assocGet db.rows key with
  | none => some (default, db)
  | some row =>
    match row.expires with
    | some e =>
      if now > e then none
      else some (deserializeRow row default, db)
    | none => some (deserializeRow row default, db)

/-- `Memory.delete(key)`. -/
def memDelete (db : MemDB) (key : String) : MemDB := ⟨assocDel db.rows key⟩

/-- `Memory.exists(key)`, defined as `get(key) is not None`; it inherits the
non-returning behaviour of `get` on an expired row. -/
def memExists (db : MemDB) (now : Int) (key : String) : Option (Bool × MemDB) :=
  match memGet db now key .vnone with
  | some (v, db2) => some (decide (v ≠ PyVal.vnone), db2)
  | none => none

/-! ### Well-formed stored values

`wfVal` cuts the value space down to what a Python caller can actually pass
to `Memory.set` for the five supported types: floats carry a finite
canonical `repr` string, dict keys are distinct, and `None` (which is not
one of the five supported types) is excluded. -/

/-- Key membership in a pair list. -/
def pairsHasKey : PyPairs → String → Bool
  | .pnil, _ => false
  | .pcons k _ tl, key => k = key || pairsHasKey tl key

mutual
/-- Well-formedness of a storable value. -/
def wfVal : PyVal → Bool
  | .vstr _ => true
  | .vint _ => true
  | .vfloat r => floatTokenOk r
  | .vbool _ => true
  | .vnone => false
  | .vlist xs => wfList xs
  | .vdict xs => wfPairs xs
/-- Well-formedness of the elements of a list. -/
def wfList : PyList → Bool
  | .nil => true
  | .cons x tl => wfVal x && wfList tl
/-- Well-formedness of dict members: fresh key, well-formed value. -/
def wfPairs : PyPairs → Bool
  | .pnil => true
  | .pcons k v tl => !pairsHasKey tl k && wfVal v && wfPairs tl
end

mutual
/-- Fuel measure for the parser: an upper bound on the recursion depth the
parser needs on the serialized form of `v`. -/
def sizeVal : PyVal → Nat
  | .vlist xs => 1 + sizeList xs
  | .vdict xs => 1 + sizePairs xs
  | _ => 1
/-- Measure over list elements. -/
def sizeList : PyList → Nat
  | .nil => 0
  | .cons x tl => 1 + sizeVal x + sizeList tl
/-- Measure over dict members. -/
def sizePairs : PyPairs → Nat
  | .pnil => 0
  | .pcons _ v tl => 1 + sizeVal v + sizePairs tl
end

/-! ### Lemmas about the pattern scorer and the best-match loop -/

theorem wordLoop_eq_some (text : String) (isShort : Bool) (pws : List String) :
    ∀ ws q, wordLoop text isShort pws ws = some q → q = 95 ∨ q = 90 := by
  cases isShort with
  | false =>
    intro ws
    induction ws with
    | nil => intro q h; simp [wordLoop] at h
    | cons tw rest ih =>
      intro q h
      by_cases hm : pws.contains tw = true
      · simp only [wordLoop, hm, if_true, if_false, Bool.false_eq_true] at h
        exact Or.inr (Option.some.inj h).symm
      · simp only [wordLoop, Bool.not_eq_true] at h
        rw [Bool.not_eq_true] at hm
        simp only [hm, Bool.false_eq_true, if_false] at h
        exact ih q h
  | true =>
    intro ws
    induction ws with
    | nil => intro q h; simp [wordLoop] at h
    | cons tw rest ih =>
      intro q h
      by_cases hm : pws.contains tw = true
      · by_cases he : tw = text
        · rw [he] at hm
          simp only [wordLoop, hm, he, if_true] at h
          exact Or.inl (Option.some.inj h).symm
        · simp only [wordLoop, hm, he, if_true, if_false] at h
          exact ih q h
      · rw [Bool.not_eq_true] at hm
        simp only [wordLoop, hm, Bool.false_eq_true, if_false] at h
        exact ih q h

theorem wordLoop_short_eq_some (text : String) (pws : List String) :
    ∀ ws q, wordLoop text true pws ws = some q → q = 95 ∧ pws.contains text = true := by
  intro ws
  induction ws with
  | nil => intro q h; simp [wordLoop] at h
  | cons tw rest ih =>
    intro q h
    by_cases hm : pws.contains tw = true
    · by_cases he : tw = text
      · rw [he] at hm
        simp only [wordLoop, hm, he, if_true] at h
        exact ⟨(Option.some.inj h).symm, hm⟩
      · simp only [wordLoop, hm, he, if_true, if_false] at h
        exact ih q h
    · rw [Bool.not_eq_true] at hm
      simp only [wordLoop, hm, Bool.false_eq_true, if_false] at h
      exact ih q h

theorem patternScore_eq_some (text : String) (tw : List String) (isShort : Bool)
    (p : String) (q : ℚ) (h : patternScore text tw isShort p = some q) :
    q = 100 ∨ q = 95 ∨ q = 90 := by
  simp only [patternScore] at h
  split at h
  · exact Or.inl (Option.some.inj h).symm
  · split at h
    next q' hw =>
      rcases wordLoop_eq_some text isShort (pySplit (pyLower p)) tw q' hw with h95 | h90
      · subst h95; exact Or.inr (Or.inl (Option.some.inj h).symm)
      · subst h90; exact Or.inr (Or.inr (Option.some.inj h).symm)
    next =>
      split at h
      · exact Or.inr (Or.inl (Option.some.inj h).symm)
      · exact absurd h (by simp)

theorem findSome?_eq_some_mem {α β : Type} (f : α → Option β) :
    ∀ (l : List α) (b : β), l.findSome? f = some b → ∃ a ∈ l, f a = some b := by
  intro l
  induction l with
  | nil => intro b h; simp [List.findSome?] at h
  | cons x t ih =>
    intro b h
    rw [List.findSome?_cons] at h
    rcases hx : f x with _ | y
    · rw [hx] at h
      rcases ih b h with ⟨a, ha, hfa⟩
      exact ⟨a, List.mem_cons_of_mem x ha, hfa⟩
    · rw [hx] at h
      exact ⟨x, List.mem_cons_self x t, hx ▸ h ▸ rfl⟩

theorem matchPatterns_le_100 (mode : FuzzyMode) (raw : String) (ps : List String) :
    matchPatterns mode raw ps ≤ 100 := by
  simp only [matchPatterns]
  split
  next q hf =>
    rcases findSome?_eq_some_mem _ ps q hf with ⟨p, _, hp⟩
    rcases patternScore_eq_some _ _ _ _ _ hp with h | h | h <;> rw [h] <;> norm_num
  next =>
    split
    · norm_num
    · split
      next =>
        split
        · norm_num
        · exact le_trans (min_le_right _ _) (by norm_num)
      next =>
        split <;> norm_num

theorem bestFold_snd_ge_init (mode : FuzzyMode) (tl : String) :
    ∀ (l : List (String × List String)) (b : Option String × ℚ),
      b.2 ≤ (bestFold mode tl l b).2 := by
  intro l
  induction l with
  | nil => intro b; simp [bestFold]
  | cons kp rest ih =>
    intro b
    simp only [bestFold]
    split
    next hgt => exact le_trans (le_of_lt hgt) (ih _)
    next => exact ih b

theorem bestFold_snd_ge_mem (mode : FuzzyMode) (tl : String) :
    ∀ (l : List (String × List String)) (b : Option String × ℚ)
      (kp : String × List String),
      kp ∈ l → matchPatterns mode tl kp.2 ≤ (bestFold mode tl l b).2 := by
  intro l
  induction l with
  | nil => intro b kp h; simp at h
  | cons hd rest ih =>
    intro b kp hmem
    rcases List.mem_cons.mp hmem with heq | htl
    · subst heq
      simp only [bestFold]
      split
      next => exact bestFold_snd_ge_init mode tl rest _
      next h => exact le_trans (le_of_not_lt h) (bestFold_snd_ge_init mode tl rest _)
    · simp only [bestFold]
      split <;> exact ih _ kp htl

theorem bestFold_spec (mode : FuzzyMode) (tl : String) :
    ∀ (l : List (String × List String)) (b : Option String × ℚ),
      bestFold mode tl l b = b
      ∨ ∃ kp ∈ l, bestFold mode tl l b = (some kp.1, matchPatterns mode tl kp.2) := by
  intro l
  induction l with
  | nil => intro b; exact Or.inl rfl
  | cons hd rest ih =>
    intro b
    simp only [bestFold]
    split
    · rcases ih (some hd.1, matchPatterns mode tl hd.2) with h | ⟨kp, hkp, h⟩
      · exact Or.inr ⟨hd, List.mem_cons_self hd rest, h⟩
      · exact Or.inr ⟨kp, List.mem_cons_of_mem hd hkp, h⟩
    · rcases ih b with h | ⟨kp, hkp, h⟩
      · exact Or.inl h
      · exact Or.inr ⟨kp, List.mem_cons_of_mem hd hkp, h⟩

theorem bestScan_snd_le_100 (mode : FuzzyMode) (tl : String) :
    (bestScan mode tl).2 ≤ 100 := by
  rcases bestFold_spec mode tl intentPatterns (none, 0) with h | ⟨kp, _, h⟩
  · rw [bestScan, h]; norm_num
  · rw [bestScan, h]; exact matchPatterns_le_100 mode tl kp.2

theorem bestScan_fst_some (mode : FuzzyMode) (tl : String)
    (h : (bestScan mode tl).2 ≠ 0) :
    ∃ kp ∈ intentPatterns, bestScan mode tl = (some kp.1, matchPatterns mode tl kp.2) := by
  rcases bestFold_spec mode tl intentPatterns (none, 0) with heq | hex
  · exact absurd (by rw [bestScan, heq]) h
  · exact hex

theorem matchPatterns_short_mode (m₁ m₂ : FuzzyMode) (raw : String) (ps : List String)
    (h1 : (pySplit (pyStrip (pyLower raw))).length ≤ 2)
    (h2 : (pyStrip (pyLower raw)).length ≤ 10) :
    matchPatterns m₁ raw ps = matchPatterns m₂ raw ps := by
  have hs : (decide ((pySplit (pyStrip (pyLower raw))).length ≤ 2)
      && decide ((pyStrip (pyLower raw)).length ≤ 10)) = true := by
    simp [h1, h2]
  simp only [matchPatterns, hs]
  split
  · rfl
  · simp

/-! ### Catalog facts used by the classifier theorems -/

theorem catalog_empty_score (mode : FuzzyMode) :
    ∀ kp ∈ intentPatterns, matchPatterns mode "" kp.2 = 0 := by
  intro kp hkp
  rw [matchPatterns_short_mode mode .basic "" kp.2 (by decide) (by decide)]
  revert hkp
  revert kp
  decide

theorem greeting_bestScan (mode : FuzzyMode) (tl : String)
    (hg : greetingWords.contains tl = true) :
    (100 : ℚ) ≤ (bestScan mode tl).2 := by
  have hmem : ("conversation.greeting",
      ["hello", "hi", "hey", "good morning", "good afternoon",
       "good evening", "howdy", "what's up"]) ∈ intentPatterns := by decide
  have h100 : matchPatterns mode tl
      ["hello", "hi", "hey", "good morning", "good afternoon",
       "good evening", "howdy", "what's up"] = 100 := by
    have : tl = "hi" ∨ tl = "hello" ∨ tl = "hey" ∨ tl = "howdy" := by
      simpa [greetingWords] using hg
    rcases this with rfl | rfl | rfl | rfl <;>
      (rw [matchPatterns_short_mode _ FuzzyMode.basic _ _ (by decide) (by decide)]; decide)
  calc (100 : ℚ) = matchPatterns mode tl _ := h100.symm
    _ ≤ (bestScan mode tl).2 :=
        bestFold_snd_ge_mem mode tl intentPatterns (none, 0) _ hmem

/-! ### Claim C1 -/

/-- C1, amended: exact equality of the whole normalized text to a trigger
phrase yields confidence 100 when it is the first rule to fire for its
catalog entry, that is, when the pattern scan of that entry returns the
exact-match score 100 (the scan walks each entry's phrase list in order and
an earlier phrase sharing a mere word with the text preempts the exact rule
with 90 or 95). -/
theorem c1_exact_first_fire_confidence_100 (mode : FuzzyMode) (text key : String)
    (pats : List String) (hmem : (key, pats) ∈ intentPatterns)
    (hscore : matchPatterns mode (pyStrip (pyLower text)) pats = 100) :
    (classifyIntent mode 65 text).confidence = 100 := by
  have hne : pyStrip (pyLower text) ≠ "" := by
    intro h0
    rw [h0] at hscore
    rw [catalog_empty_score mode (key, pats) hmem] at hscore
    norm_num at hscore
  by_cases hg : (greetingWords.contains (pyStrip (pyLower text))
      || ((pySplit (pyStrip (pyLower text))).length = 1
          && greetingWords.contains (pyStrip (pyLower text)))) = true
  · simp only [classifyIntent]
    rw [if_neg hne, if_pos hg]
  · have h100 : (bestScan mode (pyStrip (pyLower text))).2 = 100 := by
      refine le_antisymm (bestScan_snd_le_100 mode _) ?_
      have := bestFold_snd_ge_mem mode (pyStrip (pyLower text)) intentPatterns
        (none, 0) (key, pats) hmem
      rw [hscore] at this
      exact this
    rcases bestScan_fst_some mode (pyStrip (pyLower text))
        (by rw [h100]; norm_num) with ⟨kp, _, hkp⟩
    have hsc : matchPatterns mode (pyStrip (pyLower text)) kp.2 = 100 := by
      have := congrArg Prod.snd hkp
      rw [h100] at this
      exact this.symm
    simp only [classifyIntent]
    rw [if_neg hne, if_neg hg, hkp]
    simp only [thresholdBranch]
    rw [hsc, if_pos (by norm_num : (100 : ℚ) ≥ 65)]

/-- C1 counterexample: the input "turn off computer" is verbatim a trigger
phrase of the `system.shutdown` entry (and is already normalized), yet
`classify` returns confidence 90, not 100: the earlier phrase "power off" of
the same entry shares the word "off" with the text and fires first. -/
theorem c1_counterexample :
    (intentPatterns.any (fun kp => kp.2.contains "turn off computer")) = true
    ∧ pyStrip (pyLower "turn off computer") = "turn off computer"
    ∧ classifyIntent .basic 65 "turn off computer"
        = ⟨.SYSTEM, "shutdown", 90, [], "turn off computer"⟩
    ∧ (classifyIntent .basic 65 "turn off computer").confidence ≠ 100 := by
  refine ⟨by decide, by decide, by decide, by decide⟩

/-- C1 witness: for "shutdown" the exact rule is the first to fire in its
entry, and classification indeed returns confidence 100. -/
theorem c1_witness : (classifyIntent .basic 65 "shutdown").confidence = 100 :=
  c1_exact_first_fire_confidence_100 .basic "shutdown" "system.shutdown"
    ["shutdown", "shut down", "power off", "turn off computer",
     "shutdown computer", "shut down the computer"]
    (by decide) (by decide)

/-! ### Claim C10 -/

theorem catalog_category_known :
    ∀ kp ∈ intentPatterns, getCategory (splitDot kp.1).1 ≠ IntentCategory.UNKNOWN := by
  decide

/-- C10 (implicit): `classify` returns category UNKNOWN exactly on empty or
whitespace-only input, and with the default threshold 65 every other input
gets confidence at least 50 (threshold branch at least 65, heuristic 85,
catch-all exactly 50, greeting guard 100). -/
theorem c10_unknown_iff_empty_and_min_confidence (mode : FuzzyMode) (text : String) :
    ((classifyIntent mode 65 text).category = IntentCategory.UNKNOWN
        ↔ pyStrip (pyLower text) = "")
    ∧ (pyStrip (pyLower text) ≠ "" → 50 ≤ (classifyIntent mode 65 text).confidence) := by
  by_cases hne : pyStrip (pyLower text) = ""
  · simp only [classifyIntent]
    rw [if_pos hne]
    exact ⟨by simp [hne], fun h => absurd hne h⟩
  · have hmain : (classifyIntent mode 65 text).category ≠ IntentCategory.UNKNOWN
        ∧ 50 ≤ (classifyIntent mode 65 text).confidence := by
      by_cases hg : (greetingWords.contains (pyStrip (pyLower text))
          || ((pySplit (pyStrip (pyLower text))).length = 1
              && greetingWords.contains (pyStrip (pyLower text)))) = true
      · simp only [classifyIntent]
        rw [if_neg hne, if_pos hg]
        exact ⟨fun h => IntentCategory.noConfusion h, by show (50 : ℚ) ≤ 100; norm_num⟩
      · have hfb : (fallbackClassify (pyStrip (pyLower text)) text).category
              ≠ IntentCategory.UNKNOWN
            ∧ 50 ≤ (fallbackClassify (pyStrip (pyLower text)) text).confidence := by
          rcases hca : checkAppOpen (pyStrip (pyLower text)) with _ | app
          · simp only [fallbackClassify, hca]
            exact ⟨fun h => IntentCategory.noConfusion h, by show (50 : ℚ) ≤ 50; norm_num⟩
          · simp only [fallbackClassify, hca]
            exact ⟨fun h => IntentCategory.noConfusion h, by show (50 : ℚ) ≤ 85; norm_num⟩
        simp only [classifyIntent]
        rw [if_neg hne, if_neg hg]
        rcases bestFold_spec mode (pyStrip (pyLower text)) intentPatterns (none, 0)
          with heq | ⟨kp, hkpmem, hkp⟩
        · rw [show bestScan mode (pyStrip (pyLower text)) = (none, 0) from heq]
          simp only [thresholdBranch]
          exact hfb
        · rw [show bestScan mode (pyStrip (pyLower text))
              = (some kp.1, matchPatterns mode (pyStrip (pyLower text)) kp.2) from hkp]
          simp only [thresholdBranch]
          by_cases hth : matchPatterns mode (pyStrip (pyLower text)) kp.2 ≥ 65
          · rw [if_pos hth]
            refine ⟨catalog_category_known kp hkpmem, ?_⟩
            show 50 ≤ matchPatterns mode (pyStrip (pyLower text)) kp.2
            linarith
          · rw [if_neg hth]
            exact hfb
    exact ⟨⟨fun h => absurd h hmain.1, fun h => absurd h hne⟩, fun _ => hmain.2⟩

/-- C10 witness: a concrete non-empty input has confidence at least 50. -/
theorem c10_witness : 50 ≤ (classifyIntent .basic 65 "tell me something").confidence :=
  (c10_unknown_iff_empty_and_min_confidence .basic "tell me something").2 (by decide)

/-! ### Claim C6 -/

/-- C6, amended: for every non-empty input whose best catalog score is below
the threshold 65, classification follows `_check_app_open`: if the
normalized text contains an open/launch/start/run trigger as a substring
(not necessarily as a whole token) and a known desktop-application
substring, and no name of the web-application allowlist occurs anywhere in
the text, the result is APPLICATION/open at confidence 85 with the matched
name as the `app_name` entity; otherwise CONVERSATION/general at confidence
50 — a universal catch-all, never an error. -/
theorem c6_below_threshold_heuristic (mode : FuzzyMode) (text : String)
    (hne : pyStrip (pyLower text) ≠ "")
    (hlow : (bestScan mode (pyStrip (pyLower text))).2 < 65) :
    classifyIntent mode 65 text = fallbackClassify (pyStrip (pyLower text)) text
    ∧ (∀ app, checkAppOpen (pyStrip (pyLower text)) = some app →
        classifyIntent mode 65 text
          = ⟨.APPLICATION, "open", 85, [("app_name", .es app)], text⟩)
    ∧ (checkAppOpen (pyStrip (pyLower text)) = none →
        classifyIntent mode 65 text = ⟨.CONVERSATION, "general", 50, [], text⟩) := by
  have hg : ¬(greetingWords.contains (pyStrip (pyLower text))
      || ((pySplit (pyStrip (pyLower text))).length = 1
          && greetingWords.contains (pyStrip (pyLower text)))) = true := by
    intro hg
    have hc : greetingWords.contains (pyStrip (pyLower text)) = true := by
      rcases (by simpa using hg : greetingWords.contains (pyStrip (pyLower text)) = true
          ∨ (pySplit (pyStrip (pyLower text))).length = 1
            ∧ greetingWords.contains (pyStrip (pyLower text)) = true) with h | h
      · exact h
      · exact h.2
    have := greeting_bestScan mode (pyStrip (pyLower text)) hc
    linarith
  have hmain : classifyIntent mode 65 text
      = fallbackClassify (pyStrip (pyLower text)) text := by
    simp only [classifyIntent]
    rw [if_neg hne, if_neg hg]
    rcases bestFold_spec mode (pyStrip (pyLower text)) intentPatterns (none, 0)
      with heq | ⟨kp, _, hkp⟩
    · rw [show bestScan mode (pyStrip (pyLower text)) = (none, 0) from heq]
      simp only [thresholdBranch]
    · have hsc : matchPatterns mode (pyStrip (pyLower text)) kp.2 < 65 := by
        have := congrArg Prod.snd hkp
        simp only [bestScan] at hlow
        rw [this] at hlow
        exact hlow
      rw [show bestScan mode (pyStrip (pyLower text))
          = (some kp.1, matchPatterns mode (pyStrip (pyLower text)) kp.2) from hkp]
      simp only [thresholdBranch]
      rw [if_neg (not_le.mpr hsc)]
  refine ⟨hmain, fun app happ => ?_, fun hnone => ?_⟩
  · rw [hmain]
    simp only [fallbackClassify, happ]
  · rw [hmain]
    simp only [fallbackClassify, hnone]

/-- C6 counterexample: in "reopen cmd" no trigger occurs as a whole token
(the only tokens are "reopen" and "cmd"), so the claim as stated demands the
CONVERSATION/general catch-all at 50; but "open" occurs as a substring of
"reopen", the desktop name "cmd" occurs, and no web-application name does,
so the code returns APPLICATION/open at 85 instead. -/
theorem c6_counterexample :
    pySplit (pyStrip (pyLower "reopen cmd")) = ["reopen", "cmd"]
    ∧ (["open", "launch", "start", "run"].all
        (fun t => !(["reopen", "cmd"].contains t))) = true
    ∧ (bestScan .basic (pyStrip (pyLower "reopen cmd"))).2 = 0
    ∧ classifyIntent .basic 65 "reopen cmd"
        = ⟨.APPLICATION, "open", 85, [("app_name", .es "cmd")], "reopen cmd"⟩
    ∧ classifyIntent .basic 65 "reopen cmd"
        ≠ ⟨.CONVERSATION, "general", 50, [], "reopen cmd"⟩ := by
  refine ⟨by decide, by decide, by decide, by decide, by decide⟩

/-- C6 witness: "start cmd" has best score 0 < 65 and the heuristic fires on
the desktop name "cmd". -/
theorem c6_witness :
    classifyIntent .basic 65 "start cmd"
      = ⟨.APPLICATION, "open", 85, [("app_name", .es "cmd")], "start cmd"⟩ :=
  (c6_below_threshold_heuristic .basic "start cmd" (by decide) (by decide)).2.1
    "cmd" (by decide)

/-! ### Claim C8 -/

/-- C8: on a short input (at most 2 tokens and 10 characters) that does not
exactly equal any single word of any pattern, the fuzzy path is never taken
(the score does not depend on the fuzzy mode at all), and the score is 0
unless a word rule fired: either exact phrase equality (100) or the
all-pattern-words-present rule (95). -/
theorem c8_short_input_no_fuzzy (m₁ m₂ : FuzzyMode) (raw : String) (ps : List String)
    (h1 : (pySplit (pyStrip (pyLower raw))).length ≤ 2)
    (h2 : (pyStrip (pyLower raw)).length ≤ 10)
    (hnw : ∀ p ∈ ps, (pySplit (pyLower p)).contains (pyStrip (pyLower raw)) = false) :
    matchPatterns m₁ raw ps = matchPatterns m₂ raw ps
    ∧ (matchPatterns m₁ raw ps = 0
       ∨ (∃ p ∈ ps, pyLower p = pyStrip (pyLower raw) ∧ matchPatterns m₁ raw ps = 100)
       ∨ (∃ p ∈ ps, 1 < (pySplit (pyLower p)).length
            ∧ (∀ w ∈ pySplit (pyLower p), (pySplit (pyStrip (pyLower raw))).contains w)
            ∧ matchPatterns m₁ raw ps = 95)) := by
  refine ⟨matchPatterns_short_mode m₁ m₂ raw ps h1 h2, ?_⟩
  have hs : (decide ((pySplit (pyStrip (pyLower raw))).length ≤ 2)
      && decide ((pyStrip (pyLower raw)).length ≤ 10)) = true := by
    simp [h1, h2]
  rcases hf : ps.findSome? (patternScore (pyStrip (pyLower raw))
      (pySplit (pyStrip (pyLower raw))) true) with _ | q
  · left
    simp only [matchPatterns, hs, hf]
    simp
  · have hval : matchPatterns m₁ raw ps = q := by
      simp only [matchPatterns, hs, hf]
    rcases findSome?_eq_some_mem _ ps q hf with ⟨p, hp, hscore⟩
    simp only [patternScore] at hscore
    split at hscore
    next hexact =>
      right; left
      exact ⟨p, hp, hexact, hval.trans (Option.some.inj hscore).symm⟩
    next hexact =>
      split at hscore
      next q' hw =>
        rcases wordLoop_short_eq_some (pyStrip (pyLower raw))
          (pySplit (pyLower p)) _ q' hw with ⟨_, hcontains⟩
        rw [hnw p hp] at hcontains
        exact absurd hcontains (by simp)
      next =>
        split at hscore
        next hall =>
          right; right
          rcases (by simpa using hall :
              1 < (pySplit (pyLower p)).length
              ∧ ((pySplit (pyLower p)).all
                  fun w => (pySplit (pyStrip (pyLower raw))).contains w) = true)
            with ⟨hlen, hall2⟩
          refine ⟨p, hp, hlen, ?_, hval.trans (Option.some.inj hscore).symm⟩
          intro w hwmem
          have := List.all_eq_true.mp hall2 w hwmem
          simpa using this
        next => exact absurd hscore (by simp)

/-- C8 witness: a concrete short input, pattern list and two fuzzy modes. -/
theorem c8_witness :
    matchPatterns .basic "zzz" ["hello", "hi"]
      = matchPatterns (.rapid (fun _ _ => 100)) "zzz" ["hello", "hi"] :=
  (c8_short_input_no_fuzzy .basic (.rapid (fun _ _ => 100)) "zzz" ["hello", "hi"]
    (by decide) (by decide) (by decide)).1

/-! ### Claim C9 -/

/-- C9: whenever the classified intent carries the universal stop/cancel
action, the command step clears the pending speech queue, enqueues the
acknowledgment "Okay." as the only pending utterance, appends just the user
utterance to the conversation log, returns to LISTENING, and never invokes
the Dispatcher (the flag is `false` and the registry is untouched). -/
theorem c9_stop_bypasses_dispatcher (mode : FuzzyMode) (threshold : ℚ)
    (genResp : Intent → DOutcome → String) (notUnderstood : String)
    (em : EngineM) (command : String)
    (hstop : (classifyIntent mode threshold command).action = "stop") :
    handleCommand mode threshold genResp notUnderstood em command
      = ({ state := .LISTENING, ttsQueue := ["Okay."],
           conv := em.conv ++ [("user", command, none)], disp := em.disp }, false) := by
  simp only [handleCommand]
  rw [hstop]
  rfl

/-- C9 witness: the input "stop" while a response is queued clears the queue
and returns to LISTENING without a dispatch. -/
theorem c9_witness :
    handleCommand .basic 65 (fun _ _ => "") ""
        ⟨.LISTENING, ["queued response"], [], ⟨[], [], none⟩⟩ "stop"
      = (⟨.LISTENING, ["Okay."], [("user", "stop", none)], ⟨[], [], none⟩⟩, false) :=
  c9_stop_bypasses_dispatcher .basic 65 (fun _ _ => "") ""
    ⟨.LISTENING, ["queued response"], [], ⟨[], [], none⟩⟩ "stop" (by decide)

/-! ### Claim C3 -/

theorem assocGet_assocSet_self {α β : Type} [DecidableEq α] :
    ∀ (l : List (α × β)) (k : α) (v : β), assocGet (assocSet l k v) k = some v := by
  intro l
  induction l with
  | nil => intro k v; simp [assocSet, assocGet]
  | cons p t ih =>
    intro k v
    by_cases hk : p.1 = k
    · simp [assocSet, assocGet, hk]
    · cases p with
      | mk k' v' =>
        simp only at hk
        simp [assocSet, assocGet, hk, ih]

theorem assocSet_assocSet_self {α β : Type} [DecidableEq α] :
    ∀ (l : List (α × β)) (k : α) (v : β),
      assocSet (assocSet l k v) k v = assocSet l k v := by
  intro l
  induction l with
  | nil => intro k v; simp [assocSet]
  | cons p t ih =>
    intro k v
    cases p with
    | mk k' v' =>
      by_cases hk : k' = k
      · simp [assocSet, hk]
      · simp [assocSet, hk, ih]

/-- C3, amended: re-registering the same handler name does replace its entry
in the handler map (that map and the fallback are unchanged by the second
`register`), but the category index is NOT re-indexed: the second call
appends the name to its category list again, leaving a duplicate, so the
full registry state after registering twice differs from registering once. -/
theorem c3_register_twice (st : DispatcherState) (name : String)
    (cat : IntentCategory) (actions : List String) (handler : HandlerFn)
    (descr : String) :
    (register (register st name cat actions handler descr)
        name cat actions handler descr).handlers
      = (register st name cat actions handler descr).handlers
    ∧ (register (register st name cat actions handler descr)
        name cat actions handler descr).fallback
      = (register st name cat actions handler descr).fallback
    ∧ assocGet (register (register st name cat actions handler descr)
        name cat actions handler descr).categoryHandlers cat
      = some ((assocGet (register st name cat actions handler descr).categoryHandlers
          cat).getD [] ++ [name]) := by
  refine ⟨?_, rfl, ?_⟩
  · simp only [register]
    exact assocSet_assocSet_self st.handlers name _
  · rcases hc : assocGet st.categoryHandlers cat with _ | l
    · simp only [register, hc]
      rw [assocGet_assocSet_self st.categoryHandlers cat [name]]
      simp [assocGet_assocSet_self]
    · simp only [register, hc]
      rw [assocGet_assocSet_self st.categoryHandlers cat (l ++ [name])]
      simp [assocGet_assocSet_self]

/-- C3 counterexample: registering the same name twice from an empty registry
leaves the category index `[(SYSTEM, ["h", "h"])]`, not `[(SYSTEM, ["h"])]`,
so the registry state after two registrations differs from one. -/
theorem c3_counterexample :
    (register (register ⟨[], [], none⟩ "h" .SYSTEM ["x"]
        (fun _ => Except.ok HRes.rnone) "") "h" .SYSTEM ["x"]
        (fun _ => Except.ok HRes.rnone) "").categoryHandlers
      = [(IntentCategory.SYSTEM, ["h", "h"])]
    ∧ (register ⟨[], [], none⟩ "h" .SYSTEM ["x"]
        (fun _ => Except.ok HRes.rnone) "").categoryHandlers
      = [(IntentCategory.SYSTEM, ["h"])]
    ∧ ([(IntentCategory.SYSTEM, ["h", "h"])] : List (IntentCategory × List String))
      ≠ [(IntentCategory.SYSTEM, ["h"])] :=
  ⟨rfl, rfl, by decide⟩

/-! ### Claims C4 and C5 -/

theorem assocGet_mem {α β : Type} [DecidableEq α] :
    ∀ (l : List (α × β)) (k : α) (v : β), assocGet l k = some v → (k, v) ∈ l := by
  intro l
  induction l with
  | nil => intro k v h; simp [assocGet] at h
  | cons p t ih =>
    intro k v h
    cases p with
    | mk k' v' =>
      by_cases hk : k' = k
      · subst hk
        simp [assocGet] at h
        subst h
        exact List.mem_cons_self _ _
      · simp [assocGet, hk] at h
        exact List.mem_cons_of_mem _ (ih k v h)

theorem handlersFor_wf (st : DispatcherState) (hwf : wfDispatcher st = true)
    (cat : IntentCategory) :
    ∀ n ∈ handlersFor st cat, (assocGet st.handlers n).isSome = true := by
  intro n hn
  unfold handlersFor at hn
  rcases hc : assocGet st.categoryHandlers cat with _ | l
  · rw [hc] at hn
    simp at hn
  · rw [hc] at hn
    simp only [Option.getD_some] at hn
    have hmem := assocGet_mem st.categoryHandlers cat l hc
    have := List.all_eq_true.mp hwf (cat, l) hmem
    exact List.all_eq_true.mp this n hn

theorem dispatchLoop_spec (st : DispatcherState) (intent : Intent) :
    ∀ names : List String,
      (∀ n ∈ names, (assocGet st.handlers n).isSome = true) →
      dispatchLoop st intent names =
        match (names.filterMap
            fun n => (assocGet st.handlers n).map fun sk => (n, sk)).find?
            (fun p => matchesAction p.2 intent.action) with
        | some p => LoopRes.done (runNamed p.1 p.2 intent) [p.1]
        | none => LoopRes.unmatched := by
  intro names
  induction names with
  | nil => intro _; rfl
  | cons n rest ih =>
    intro hall
    have hn := hall n (List.mem_cons_self n rest)
    rcases hsk : assocGet st.handlers n with _ | sk
    · rw [hsk] at hn; simp at hn
    · simp only [dispatchLoop, hsk, List.filterMap_cons, Option.map_some']
      by_cases hm : matchesAction sk intent.action = true
      · rw [if_pos hm, List.find?_cons]
        simp only [hm, cond_true]
        rcases hh : sk.handler intent with e | r <;> simp [runNamed, hh]
      · rw [if_neg hm, List.find?_cons]
        rw [Bool.not_eq_true] at hm
        simp only [hm, cond_false]
        exact ih (fun m hm2 => hall m (List.mem_cons_of_mem n hm2))

/-- C4: on a well-formed registry, `dispatch` invokes exactly the first
handler of the category index (in registration order) whose action list
contains the action literally or the wildcard, and only that one; when the
category has handlers but none matches and no fallback is installed, it
returns `success=false` with error "No handler found" and no handler name,
invoking nothing. -/
theorem c4_dispatch_first_match (st : DispatcherState) (intent : Intent)
    (hwf : wfDispatcher st = true) :
    (∀ p, firstMatchingH st intent = some p →
        dispatch st intent = some (runNamed p.1 p.2 intent, [p.1]))
    ∧ (firstMatchingH st intent = none → st.fallback = none →
        dispatch st intent = some (.fail none "No handler found", [])) := by
  have hloop := dispatchLoop_spec st intent (handlersFor st intent.category)
    (handlersFor_wf st hwf intent.category)
  constructor
  · intro p hp
    unfold dispatch
    rw [hloop]
    unfold firstMatchingH at hp
    rw [hp]
  · intro hnone hfb
    unfold dispatch
    rw [hloop]
    unfold firstMatchingH at hnone
    rw [hnone, hfb]

/-- C4 witness: with two SYSTEM handlers registered, the action "x" skips the
first (actions ["other"]) and invokes exactly the second. -/
theorem c4_witness :
    dispatch
        ⟨[("a", ⟨"a", .SYSTEM, ["other"], fun _ => Except.ok (HRes.rstr "ra"), ""⟩),
          ("b", ⟨"b", .SYSTEM, ["x"], fun _ => Except.ok (HRes.rstr "rb"), ""⟩)],
         [(.SYSTEM, ["a", "b"])], none⟩
        ⟨.SYSTEM, "x", 0, [], "x"⟩
      = some (.ok "b" (HRes.rstr "rb"), ["b"]) :=
  (c4_dispatch_first_match
      ⟨[("a", ⟨"a", .SYSTEM, ["other"], fun _ => Except.ok (HRes.rstr "ra"), ""⟩),
        ("b", ⟨"b", .SYSTEM, ["x"], fun _ => Except.ok (HRes.rstr "rb"), ""⟩)],
       [(.SYSTEM, ["a", "b"])], none⟩
      ⟨.SYSTEM, "x", 0, [], "x"⟩ (by decide)).1
    ("b", ⟨"b", .SYSTEM, ["x"], fun _ => Except.ok (HRes.rstr "rb"), ""⟩) rfl

/-- C5, amended: a raising handler is captured — `dispatch` returns
`success=false` with that handler's name and the error text, never
propagating; a raising fallback is likewise captured (the engine does not
crash), but it is reported as the generic `success=false` /
"No handler found" outcome, without the fallback's name or its error
description. -/
theorem c5_error_capture (st : DispatcherState) (intent : Intent)
    (hwf : wfDispatcher st = true) :
    (∀ p e, firstMatchingH st intent = some p →
        p.2.handler intent = Except.error e →
        dispatch st intent = some (.fail (some p.1) e, [p.1]))
    ∧ (firstMatchingH st intent = none →
        ∀ fb e, st.fallback = some fb → fb intent = Except.error e →
          dispatch st intent = some (.fail none "No handler found", ["fallback"])) := by
  have hloop := dispatchLoop_spec st intent (handlersFor st intent.category)
    (handlersFor_wf st hwf intent.category)
  constructor
  · intro p e hp herr
    unfold dispatch
    rw [hloop]
    unfold firstMatchingH at hp
    rw [hp]
    simp only [runNamed, herr]
  · intro hnone fb e hfb herr
    unfold dispatch
    rw [hloop]
    unfold firstMatchingH at hnone
    rw [hnone]
    simp only [hfb, herr]

/-- C5 counterexample: with no handlers and a fallback that raises "boom",
`dispatch` returns the generic "No handler found" failure with no handler
name — the outcome neither identifies the fallback nor carries its error
description, contrary to the claim. -/
theorem c5_counterexample :
    dispatch ⟨[], [], some (fun _ => Except.error "boom")⟩ ⟨.SYSTEM, "x", 0, [], "x"⟩
      = some (.fail none "No handler found", ["fallback"])
    ∧ ("No handler found" : String) ≠ "boom"
    ∧ DOutcome.fail none "No handler found" ≠ .fail (some "fallback") "boom" :=
  ⟨rfl, by decide, by decide⟩

/-- C5 witness: a registered handler that raises "kaput" is captured and
reported with its name. -/
theorem c5_witness :
    dispatch
        ⟨[("e", ⟨"e", .SYSTEM, ["x"], fun _ => Except.error "kaput", ""⟩)],
         [(.SYSTEM, ["e"])], none⟩
        ⟨.SYSTEM, "x", 0, [], "x"⟩
      = some (.fail (some "e") "kaput", ["e"]) :=
  (c5_error_capture
      ⟨[("e", ⟨"e", .SYSTEM, ["x"], fun _ => Except.error "kaput", ""⟩)],
       [(.SYSTEM, ["e"])], none⟩
      ⟨.SYSTEM, "x", 0, [], "x"⟩ (by decide)).1
    ("e", ⟨"e", .SYSTEM, ["x"], fun _ => Except.error "kaput", ""⟩) "kaput" rfl rfl

/-! ### Claim C2 -/

/-- C2 (code bug): after `set("k", "v", ttl_seconds=1)` at time 0 the row is
readable before its expiry instant, but a `get` after the expiry instant
never returns (modelled as `none`): instead of lazily deleting the row and
returning the default, `Memory.get` calls `self.delete(key)` while already
holding the store lock, and `threading.Lock` is not reentrant, so the call
deadlocks.  The subsequent existence check inherits the same fate. -/
theorem c2_expired_get_deadlocks :
    memGet (memSet memEmpty 0 "k" (.vstr "v") (some 1)) 0 "k" .vnone
      = some (.vstr "v", memSet memEmpty 0 "k" (.vstr "v") (some 1))
    ∧ memGet (memSet memEmpty 0 "k" (.vstr "v") (some 1)) 2 "k" .vnone = none
    ∧ memExists (memSet memEmpty 0 "k" (.vstr "v") (some 1)) 2 "k" = none := by
  refine ⟨by decide, by decide, by decide⟩

/-! ### Claim C7 -/

/-- C7 counterexample: the float `1e30` (Python renders it as the string
"1e+30", with no decimal point) is stored under type tag "number", and
`get` then tries `int("1e+30")`, which raises; the exception handler returns
the default, so the round-trip loses the value. -/
theorem c7_counterexample :
    memGet (memSet memEmpty 0 "f" (.vfloat "1e+30") none) 0 "f" .vnone
      = some (.vnone, memSet memEmpty 0 "f" (.vfloat "1e+30") none)
    ∧ PyVal.vnone ≠ PyVal.vfloat "1e+30" := by
  refine ⟨by decide, by decide⟩

/-! ### Decimal and character lemmas for the serialization round-trip -/

theorem digitChar_isDigit : ∀ k, k < 10 → (digitChar k).isDigit = true := by decide

theorem digitChar_val : ∀ k, k < 10 → (digitChar k).toNat - 48 = k := by decide

theorem natToRevDigitsF_all :
    ∀ f n, (natToRevDigitsF f n).all Char.isDigit = true := by
  intro f
  induction f with
  | zero => intro n; rfl
  | succ f ih =>
    intro n
    simp only [natToRevDigitsF]
    split
    next h => simp [digitChar_isDigit n h]
    next h => simp [digitChar_isDigit (n % 10) (by omega), ih]

theorem natDecimal_ne_nil (n : Nat) : natDecimal n ≠ [] := by
  simp only [natDecimal]
  intro h
  rw [List.reverse_eq_nil_iff] at h
  revert h
  simp only [natToRevDigitsF]
  split <;> simp

theorem natDecimal_all (n : Nat) : (natDecimal n).all Char.isDigit = true := by
  simpa [natDecimal] using natToRevDigitsF_all (n + 1) n

theorem digitsValAux_eq_foldl :
    ∀ (l : List Char) (acc : Nat), l.all Char.isDigit = true →
      digitsValAux l acc = some (l.foldl (fun a c => a * 10 + (c.toNat - 48)) acc) := by
  intro l
  induction l with
  | nil => intro acc _; rfl
  | cons c t ih =>
    intro acc hall
    rcases (by simpa using hall : c.isDigit = true ∧ t.all Char.isDigit = true) with ⟨hc, ht⟩
    simp [digitsValAux, hc, ih _ ht]

theorem foldl_revDigits :
    ∀ f n, n < f →
      ((natToRevDigitsF f n).reverse).foldl (fun a c => a * 10 + (c.toNat - 48)) 0 = n := by
  intro f
  induction f with
  | zero => intro n h; omega
  | succ f ih =>
    intro n h
    by_cases h10 : n < 10
    · simp only [natToRevDigitsF, h10, if_pos]
      simp [digitChar_val n h10]
    · simp only [natToRevDigitsF, h10, if_false, Bool.false_eq_true]
      rw [List.reverse_cons, List.foldl_append, ih (n / 10) (by omega)]
      simp only [List.foldl]
      rw [digitChar_val (n % 10) (by omega)]
      omega

theorem digitsValAux_natDecimal (n : Nat) : digitsValAux (natDecimal n) 0 = some n := by
  rw [digitsValAux_eq_foldl _ _ (natDecimal_all n)]
  simp only [natDecimal]
  rw [foldl_revDigits (n + 1) n (by omega)]

theorem natDecimal_head_digit (n : Nat) :
    ∃ c t, natDecimal n = c :: t ∧ c.isDigit = true := by
  rcases hl : natDecimal n with _ | ⟨c, t⟩
  · exact absurd hl (natDecimal_ne_nil n)
  · refine ⟨c, t, rfl, ?_⟩
    have hall := natDecimal_all n
    rw [hl] at hall
    exact ((by simpa using hall : c.isDigit = true ∧ t.all Char.isDigit = true)).1

theorem ne_of_isDigit {c : Char} (h : c.isDigit = true) (d : Char)
    (hd : d.isDigit = false) : c ≠ d := by
  intro e
  rw [e, hd] at h
  exact Bool.false_ne_true h

theorem pyIntParse_intDecimal : ∀ n : Int, pyIntParse (String.mk (intDecimal n)) = some n := by
  intro n
  by_cases hneg : n < 0
  · have hne : (natDecimal n.natAbs).isEmpty = false := by
      rcases hl : natDecimal n.natAbs with _ | ⟨c, t⟩
      · exact absurd hl (natDecimal_ne_nil _)
      · rfl
    simp only [intDecimal, hneg, if_pos, pyIntParse]
    simp only [if_pos rfl, hne, Bool.false_eq_true, if_false, digitsValAux_natDecimal]
    have habs : ((n.natAbs : Int)) = -n := by omega
    simp [habs]
  · obtain ⟨c, t, hct, hcd⟩ := natDecimal_head_digit n.natAbs
    have hid : intDecimal n = natDecimal n.natAbs := by simp [intDecimal, hneg]
    rw [hid, hct]
    simp only [pyIntParse]
    rw [if_neg (ne_of_isDigit hcd '-' (by decide)),
      if_neg (ne_of_isDigit hcd '+' (by decide))]
    rw [← hct, digitsValAux_natDecimal]
    simp
    omega

theorem contains_eq_false_of_all {p : Char → Bool} (d : Char) (hd : p d = false) :
    ∀ l : List Char, l.all p = true → l.contains d = false := by
  intro l
  induction l with
  | nil => intro _; rfl
  | cons c t ih =>
    intro hall
    rcases (by simpa using hall : p c = true ∧ t.all p = true) with ⟨hc, ht⟩
    have hdc : (d == c) = false := by
      by_cases e : d = c
      · rw [e, hc] at hd; exact absurd hd (by simp)
      · simp [e]
    rw [List.contains_cons, hdc, ih ht]
    rfl

theorem takeWhile_append_all {p : Char → Bool} :
    ∀ (l r : List Char), l.all p = true →
      (∀ c, r.head? = some c → p c = false) →
      (l ++ r).takeWhile p = l ∧ (l ++ r).dropWhile p = r := by
  intro l
  induction l with
  | nil =>
    intro r _ hr
    rcases r with _ | ⟨c, t⟩
    · exact ⟨rfl, rfl⟩
    · have := hr c rfl
      simp [List.takeWhile_cons, List.dropWhile_cons, this]
  | cons c t ih =>
    intro r hall hr
    rcases (by simpa using hall : p c = true ∧ t.all p = true) with ⟨hc, ht⟩
    rcases ih r ht hr with ⟨h1, h2⟩
    simp [List.takeWhile_cons, List.dropWhile_cons, hc, h1, h2]

/-! ### The string escape round-trip -/

theorem hexVal_hexDigitChar : ∀ d, d < 16 → hexVal (hexDigitChar d) = some d := by decide

theorem char_toNat_valid (c : Char) :
    c.toNat < 55296 ∨ (57343 < c.toNat ∧ c.toNat < 1114112) := c.valid

theorem hexVal4_hex4 (n : Nat) (h : n < 65536) :
    hexVal4 (hexDigitChar (n / 4096 % 16)) (hexDigitChar (n / 256 % 16))
      (hexDigitChar (n / 16 % 16)) (hexDigitChar (n % 16)) = some n := by
  unfold hexVal4
  rw [hexVal_hexDigitChar _ (by omega), hexVal_hexDigitChar _ (by omega),
    hexVal_hexDigitChar _ (by omega), hexVal_hexDigitChar _ (by omega)]
  have hv : ((n / 4096 % 16 * 16 + n / 256 % 16) * 16 + n / 16 % 16) * 16 + n % 16 = n := by
    omega
  simp [hv]

theorem escUStep_hex4 (v : Nat) (hv : v < 65536) (l : List Char) :
    escUStep (hex4 v ++ l) = escUTail l v := by
  simp only [hex4, List.cons_append, List.nil_append, escUStep]
  rw [hexVal4_hex4 v hv]

theorem escStep_u2 (v : Nat) (hv : v < 65536) (l : List Char) :
    escStep ('u' :: (hex4 v ++ l)) = escUTail l v := by
  simp only [escStep]
  rw [if_pos trivial]
  exact escUStep_hex4 v hv l

theorem escStep_bmp (v : Nat) (hv : v < 65536) (h2 : v < 55296 ∨ 57343 < v)
    (l : List Char) :
    escStep ('u' :: (hex4 v ++ l)) = some (Char.ofNat v, l) := by
  rw [escStep_u2 v hv l]
  unfold escUTail
  rw [if_neg (by omega), if_neg (by omega)]

theorem escStep_pair (v w : Nat) (hv1 : 55296 ≤ v) (hv2 : v ≤ 56319)
    (hw1 : 56320 ≤ w) (hw2 : w ≤ 57343) (l : List Char) :
    escStep ('u' :: (hex4 v ++ ('\\' :: 'u' :: (hex4 w ++ l))))
      = some (Char.ofNat (65536 + (v - 55296) * 1024 + (w - 56320)), l) := by
  rw [escStep_u2 v (by omega)]
  unfold escUTail
  rw [if_pos ⟨hv1, hv2⟩]
  simp only [hex4, List.cons_append, List.nil_append, escPairTail]
  rw [if_pos (⟨trivial, trivial⟩ : True ∧ True), hexVal4_hex4 w (by omega)]
  simp only [escPairFin]
  rw [if_pos ⟨hw1, hw2⟩]

theorem escStep_quote (l : List Char) : escStep ('"' :: l) = some ('"', l) := rfl

theorem escStep_backslash (l : List Char) : escStep ('\\' :: l) = some ('\\', l) := rfl

theorem escStep_b (l : List Char) : escStep ('b' :: l) = some ('\x08', l) := rfl

theorem escStep_f (l : List Char) : escStep ('f' :: l) = some ('\x0c', l) := rfl

theorem escStep_n (l : List Char) : escStep ('n' :: l) = some ('\x0a', l) := rfl

theorem escStep_r (l : List Char) : escStep ('r' :: l) = some ('\x0d', l) := rfl

theorem escStep_t (l : List Char) : escStep ('t' :: l) = some ('\x09', l) := rfl

theorem parseStringBody_cons (fuel : Nat) (c : Char) (rest : List Char) :
    parseStringBody (fuel + 1) (c :: rest)
      = if c = '"' then some ([], rest)
        else if c = '\\' then
          (escStep rest).bind (fun p => mapCons p.1 (parseStringBody fuel p.2))
        else mapCons c (parseStringBody fuel rest) := rfl

theorem parseStringBody_escape :
    ∀ (s : List Char) (fuel : Nat) (rest : List Char), s.length < fuel →
      parseStringBody fuel (escapeList s ++ '"' :: rest) = some (s, rest) := by
  intro s
  induction s with
  | nil =>
    intro fuel rest hf
    cases fuel with
    | zero => omega
    | succ f => rfl
  | cons c t ih =>
    intro fuel rest hf
    cases fuel with
    | zero => omega
    | succ f =>
      have hrec := ih f rest (by simp at hf; omega)
      simp only [escapeList, List.append_assoc]
      by_cases h1 : c = '"'
      · subst h1
        rw [show jsonEscapeChar '"' = ['\\', '"'] from rfl]
        simp only [List.cons_append, List.nil_append]
        rw [parseStringBody_cons, if_neg (by decide : ¬('\\' : Char) = '"'),
          if_pos (rfl : ('\\' : Char) = '\\'), escStep_quote]
        simp [mapCons, hrec]
      · by_cases h2 : c = '\\'
        · subst h2
          rw [show jsonEscapeChar '\\' = ['\\', '\\'] from rfl]
          simp only [List.cons_append, List.nil_append]
          rw [parseStringBody_cons, if_neg (by decide : ¬('\\' : Char) = '"'),
            if_pos (rfl : ('\\' : Char) = '\\'), escStep_backslash]
          simp [mapCons, hrec]
        · by_cases h3 : c = '\x08'
          · subst h3
            rw [show jsonEscapeChar '\x08' = ['\\', 'b'] from rfl]
            simp only [List.cons_append, List.nil_append]
            rw [parseStringBody_cons, if_neg (by decide : ¬('\\' : Char) = '"'),
              if_pos (rfl : ('\\' : Char) = '\\'), escStep_b]
            simp [mapCons, hrec]
          · by_cases h4 : c = '\x0c'
            · subst h4
              rw [show jsonEscapeChar '\x0c' = ['\\', 'f'] from rfl]
              simp only [List.cons_append, List.nil_append]
              rw [parseStringBody_cons, if_neg (by decide : ¬('\\' : Char) = '"'),
                if_pos (rfl : ('\\' : Char) = '\\'), escStep_f]
              simp [mapCons, hrec]
            · by_cases h5 : c = '\x0a'
              · subst h5
                rw [show jsonEscapeChar '\x0a' = ['\\', 'n'] from rfl]
                simp only [List.cons_append, List.nil_append]
                rw [parseStringBody_cons, if_neg (by decide : ¬('\\' : Char) = '"'),
                  if_pos (rfl : ('\\' : Char) = '\\'), escStep_n]
                simp [mapCons, hrec]
              · by_cases h6 : c = '\x0d'
                · subst h6
                  rw [show jsonEscapeChar '\x0d' = ['\\', 'r'] from rfl]
                  simp only [List.cons_append, List.nil_append]
                  rw [parseStringBody_cons, if_neg (by decide : ¬('\\' : Char) = '"'),
                    if_pos (rfl : ('\\' : Char) = '\\'), escStep_r]
                  simp [mapCons, hrec]
                · by_cases h7 : c = '\x09'
                  · subst h7
                    rw [show jsonEscapeChar '\x09' = ['\\', 't'] from rfl]
                    simp only [List.cons_append, List.nil_append]
                    rw [parseStringBody_cons, if_neg (by decide : ¬('\\' : Char) = '"'),
                      if_pos (rfl : ('\\' : Char) = '\\'), escStep_t]
                    simp [mapCons, hrec]
                  · by_cases h8 : (decide (32 ≤ c.toNat) && decide (c.toNat ≤ 126)) = true
                    · have he : jsonEscapeChar c = [c] := by
                        simp only [jsonEscapeChar]
                        rw [if_neg h1, if_neg h2, if_neg h3, if_neg h4, if_neg h5,
                          if_neg h6, if_neg h7, if_pos h8]
                      rw [he, List.singleton_append, parseStringBody_cons,
                        if_neg h1, if_neg h2]
                      simp [mapCons, hrec]
                    · by_cases h9 : c.toNat < 65536
                      · have he : jsonEscapeChar c = '\\' :: 'u' :: hex4 c.toNat := by
                          simp only [jsonEscapeChar]
                          rw [if_neg h1, if_neg h2, if_neg h3, if_neg h4, if_neg h5,
                            if_neg h6, if_neg h7, if_neg h8, if_pos h9]
                        rw [he]
                        have hval := char_toNat_valid c
                        simp only [List.cons_append, List.append_assoc]
                        rw [parseStringBody_cons, if_neg (by decide : ¬('\\' : Char) = '"'),
                          if_pos (rfl : ('\\' : Char) = '\\'),
                          escStep_bmp c.toNat h9 (by omega), Char.ofNat_toNat]
                        simp [mapCons, hrec]
                      · have hval := char_toNat_valid c
                        have hup : c.toNat < 1114112 := by
                          rcases hval with h | ⟨_, h⟩ <;> omega
                        have he : jsonEscapeChar c
                            = ('\\' :: 'u' :: hex4 (55296 + (c.toNat - 65536) / 1024))
                              ++ ('\\' :: 'u' :: hex4 (56320 + (c.toNat - 65536) % 1024)) := by
                          simp only [jsonEscapeChar]
                          rw [if_neg h1, if_neg h2, if_neg h3, if_neg h4, if_neg h5,
                            if_neg h6, if_neg h7, if_neg h8, if_neg h9]
                        rw [he]
                        simp only [List.cons_append, List.append_assoc, List.nil_append]
                        rw [parseStringBody_cons, if_neg (by decide : ¬('\\' : Char) = '"'),
                          if_pos (rfl : ('\\' : Char) = '\\'),
                          escStep_pair (55296 + (c.toNat - 65536) / 1024)
                            (56320 + (c.toNat - 65536) % 1024)
                            (by omega) (by omega) (by omega) (by omega)]
                        rw [show 65536 + (55296 + (c.toNat - 65536) / 1024 - 55296) * 1024
                            + (56320 + (c.toNat - 65536) % 1024 - 56320) = c.toNat from by omega]
                        rw [Char.ofNat_toNat]
                        simp [mapCons, hrec]

/-! ### Number-token facts -/

theorem all_mono {p q : Char → Bool} (hpq : ∀ c, p c = true → q c = true) :
    ∀ l : List Char, l.all p = true → l.all q = true := by
  intro l
  induction l with
  | nil => intro h; exact h
  | cons c t ih =>
    intro hall
    rcases (by simpa using hall : p c = true ∧ t.all p = true) with ⟨hc, ht⟩
    simp [hpq c hc, ih ht]

theorem takeWhile_all (p : Char → Bool) (l : List Char) :
    (l.takeWhile p).all p = true := by
  rw [List.all_eq_true]
  intro x hx
  exact List.mem_takeWhile_imp hx

theorem numberChar_of_digit {c : Char} (h : c.isDigit = true) : numberChar c = true := by
  simp [numberChar, h]

theorem contains_append_cons (l1 l2 : List Char) (c : Char) :
    (l1 ++ c :: l2).contains c = true := by
  simp [List.elem_eq_mem]

theorem expOk_all (l : List Char) (h : expOk l = true) : l.all numberChar = true := by
  unfold expOk at h
  rcases l with _ | ⟨c, r⟩
  · simp at h
  · have hif : (if c = '+' ∨ c = '-' then
        (let s := spanDigits r; !s.1.isEmpty && s.2.isEmpty) else false) = true := h
    by_cases hc : c = '+' ∨ c = '-'
    · rw [if_pos hc] at hif
      simp only [spanDigits] at hif
      rw [Bool.and_eq_true] at hif
      obtain ⟨_, h2⟩ := hif
      have hr : r.dropWhile Char.isDigit = [] := by simpa using h2
      have hreq : r = r.takeWhile Char.isDigit := by
        conv_lhs => rw [← List.takeWhile_append_dropWhile Char.isDigit r]
        rw [hr, List.append_nil]
      have hcn : numberChar c = true := by
        rcases hc with h | h <;> simp [numberChar, h]
      have hrall : r.all numberChar = true := by
        rw [hreq]
        exact all_mono (fun d hd => numberChar_of_digit hd) _ (takeWhile_all _ _)
      simp [hcn, hrall]
    · rw [if_neg hc] at hif
      simp at hif

theorem floatAux_parts (l : List Char) (h : floatTokenOkAux l = true) :
    l.all numberChar = true ∧ (l.contains '.' || l.contains 'e') = true ∧
    ∃ c t, l = c :: t ∧ c.isDigit = true := by
  unfold floatTokenOkAux at h
  simp only [spanDigits] at h
  by_cases he1 : (l.takeWhile Char.isDigit).isEmpty = true
  · rw [if_pos he1] at h
    simp at h
  · rw [if_neg he1] at h
    have hsplit := List.takeWhile_append_dropWhile Char.isDigit l
    have htall : (l.takeWhile Char.isDigit).all Char.isDigit = true := takeWhile_all _ _
    rcases ht1 : l.takeWhile Char.isDigit with _ | ⟨c1, t1⟩
    · rw [ht1] at he1
      exact absurd rfl he1
    · rcases hr1 : l.dropWhile Char.isDigit with _ | ⟨c2, r2⟩
      · rw [hr1] at h
        simp at h
      · rw [hr1] at h
        have h2 : (if c2 = '.' then
              (if (List.takeWhile Char.isDigit r2).isEmpty = true then false
               else
                match List.dropWhile Char.isDigit r2 with
                | [] => true
                | c4 :: r4 => if c4 = 'e' then expOk r4 else false)
            else if c2 = 'e' then expOk r2 else false) = true := h
        have hl : l = c1 :: (t1 ++ c2 :: r2) := by
          rw [ht1, hr1] at hsplit
          rw [← hsplit]
          rfl
        rw [ht1] at htall
        rcases (by simpa using htall : c1.isDigit = true ∧ t1.all Char.isDigit = true)
          with ⟨hc1, ht1all⟩
        have ht1num : t1.all numberChar = true :=
          all_mono (fun d hd => numberChar_of_digit hd) _ ht1all
        have hmain : l.all numberChar = true ∧ (l.contains '.' || l.contains 'e') = true := by
          by_cases hdot : c2 = '.'
          · rw [if_pos hdot] at h2
            by_cases he2 : (r2.takeWhile Char.isDigit).isEmpty = true
            · rw [if_pos he2] at h2
              simp at h2
            · rw [if_neg he2] at h2
              have hsplit2 := List.takeWhile_append_dropWhile Char.isDigit r2
              have ht2num : (r2.takeWhile Char.isDigit).all numberChar = true :=
                all_mono (fun d hd => numberChar_of_digit hd) _ (takeWhile_all _ _)
              have hcont : (l.contains '.' || l.contains 'e') = true := by
                rw [hl, hdot, List.contains_cons, contains_append_cons]
                simp
              rcases hr2 : r2.dropWhile Char.isDigit with _ | ⟨c4, r4⟩
              · have hr2eq : r2 = r2.takeWhile Char.isDigit := by
                  rw [hr2, List.append_nil] at hsplit2
                  exact hsplit2.symm
                have hr2num : r2.all numberChar = true := by
                  rw [hr2eq]
                  exact ht2num
                refine ⟨?_, hcont⟩
                rw [hl, hdot]
                simp [List.all_append, numberChar_of_digit hc1, ht1num, hr2num, numberChar, hc1]
              · rw [hr2] at h2
                have h3 : (if c4 = 'e' then expOk r4 else false) = true := h2
                by_cases hce : c4 = 'e'
                · rw [if_pos hce] at h3
                  have hr2eq : r2 = r2.takeWhile Char.isDigit ++ c4 :: r4 := by
                    rw [hr2] at hsplit2
                    exact hsplit2.symm
                  have hr4num : r4.all numberChar = true := expOk_all r4 h3
                  have hr2num : r2.all numberChar = true := by
                    rw [hr2eq, hce]
                    simp [List.all_append, ht2num, hr4num, numberChar]
                  refine ⟨?_, hcont⟩
                  rw [hl, hdot]
                  simp [List.all_append, numberChar_of_digit hc1, ht1num, hr2num, numberChar, hc1]
                · rw [if_neg hce] at h3
                  simp at h3
          · by_cases hee : c2 = 'e'
            · rw [if_neg hdot, if_pos hee] at h2
              have hr2num : r2.all numberChar = true := expOk_all r2 h2
              constructor
              · rw [hl, hee]
                simp [List.all_append, numberChar_of_digit hc1, ht1num, hr2num, numberChar, hc1]
              · rw [hl, hee, List.contains_cons, List.contains_cons, contains_append_cons]
                simp
            · rw [if_neg hdot, if_neg hee] at h2
              simp at h2
        exact ⟨hmain.1, hmain.2, c1, t1 ++ c2 :: r2, hl, hc1⟩

theorem floatTokenOk_parts (r : String) (h : floatTokenOk r = true) :
    r.data.all numberChar = true ∧ (r.data.contains '.' || r.data.contains 'e') = true ∧
    ∃ c t, r.data = c :: t ∧
      (c.isDigit = true ∨ (c = '-' ∧ ∃ d t2, t = d :: t2 ∧ d.isDigit = true)) := by
  unfold floatTokenOk at h
  rcases hd : r.data with _ | ⟨c, rest⟩ <;> rw [hd] at h
  · simp at h
  · have h2 : (if c = '-' then floatTokenOkAux rest else floatTokenOkAux (c :: rest))
        = true := h
    by_cases hc : c = '-'
    · rw [if_pos hc] at h2
      obtain ⟨hall, hcont, d, t2, hdt, hdd⟩ := floatAux_parts rest h2
      refine ⟨?_, ?_, c, rest, rfl, Or.inr ⟨hc, d, t2, hdt, hdd⟩⟩
      · simp [hc, hall, numberChar]
      · rcases (by simpa using hcont : rest.contains '.' = true ∨ rest.contains 'e' = true)
          with h1 | h1
        · rw [List.contains_cons, h1]
          simp
        · rw [List.contains_cons, List.contains_cons, h1]
          simp
    · rw [if_neg hc] at h2
      obtain ⟨hall, hcont, c1, t1, hct, hc1⟩ := floatAux_parts (c :: rest) h2
      rcases (List.cons.injEq .. ▸ hct : c = c1 ∧ rest = t1) with ⟨he1, he2⟩
      exact ⟨hall, hcont, c, rest, rfl, Or.inl (he1 ▸ hc1)⟩

theorem intDecimal_parts (n : Int) :
    (intDecimal n).all numberChar = true ∧
    (intDecimal n).contains '.' = false ∧ (intDecimal n).contains 'e' = false ∧
    (intDecimal n).contains 'E' = false := by
  have hdig := natDecimal_all n.natAbs
  have hnum : (natDecimal n.natAbs).all numberChar = true :=
    all_mono (fun d hd => numberChar_of_digit hd) _ hdig
  unfold intDecimal
  by_cases hn : n < 0
  · rw [if_pos hn]
    refine ⟨by simp [hnum, numberChar], ?_, ?_, ?_⟩
    · rw [List.contains_cons, contains_eq_false_of_all '.' (by decide) _ hdig]
      decide
    · rw [List.contains_cons, contains_eq_false_of_all 'e' (by decide) _ hdig]
      decide
    · rw [List.contains_cons, contains_eq_false_of_all 'E' (by decide) _ hdig]
      decide
  · rw [if_neg hn]
    exact ⟨hnum, contains_eq_false_of_all '.' (by decide) _ hdig,
      contains_eq_false_of_all 'e' (by decide) _ hdig,
      contains_eq_false_of_all 'E' (by decide) _ hdig⟩

theorem parseNumberToken_int (n : Int) : parseNumberToken (intDecimal n) = some (.vint n) := by
  obtain ⟨hall, hdot, he, hE⟩ := intDecimal_parts n
  have hne : (intDecimal n).isEmpty = false := by
    unfold intDecimal
    by_cases hn : n < 0
    · rw [if_pos hn]
      rfl
    · rw [if_neg hn]
      rcases hl : natDecimal n.natAbs with _ | ⟨c, t⟩
      · exact absurd hl (natDecimal_ne_nil _)
      · rfl
  unfold parseNumberToken
  rw [hne, if_neg Bool.false_ne_true, hdot, he, hE, if_neg (by simp),
    pyIntParse_intDecimal]
  rfl

theorem parseNumberToken_float (r : String) (h : floatTokenOk r = true) :
    parseNumberToken r.data = some (.vfloat r) := by
  obtain ⟨hall, hcont, c, t, hct, _⟩ := floatTokenOk_parts r h
  unfold parseNumberToken
  have hne : r.data.isEmpty = false := by
    rw [hct]
    rfl
  rw [hne, if_neg Bool.false_ne_true]
  rcases (by simpa using hcont : r.data.contains '.' = true ∨ r.data.contains 'e' = true)
    with h1 | h1
  · rw [h1, if_pos (by simp)]
  · rw [h1, if_pos (by simp)]

theorem parseNum_token (c : Char) (tl rest : List Char) (v : PyVal)
    (hall : (c :: tl).all numberChar = true)
    (hrest : ∀ d, rest.head? = some d → numberChar d = false)
    (htok : parseNumberToken (c :: tl) = some v) :
    parseNum c (tl ++ rest) = some (v, rest) := by
  unfold parseNum
  have hc : numberChar c = true :=
    ((by simpa using hall : numberChar c = true ∧ tl.all numberChar = true)).1
  rw [if_pos hc]
  have hsp := takeWhile_append_all (c :: tl) rest hall hrest
  rw [← List.cons_append, hsp.1, hsp.2, htok]
  rfl

theorem take8_ne (d : Char) (hd : d.isDigit = true) (l : List Char)
    (h : (d :: l).take 8 = "Infinity".data) : False := by
  rw [show (8 : Nat) = 7 + 1 from rfl, List.take_succ_cons,
    show ("Infinity").data = 'I' :: "nfinity".data from rfl] at h
  have hdI : d = 'I' := ((List.cons.injEq ..).mp h).1
  rw [hdI] at hd
  exact absurd hd (by decide)

/-! ### Unfolding equations for the parser -/

theorem parseVal_cons (fuel : Nat) (c : Char) (rest : List Char) :
    parseVal (fuel + 1) (c :: rest)
      = (if c = '"' then
          (parseStringBody (rest.length + 1) rest).bind
            (fun p => some (.vstr (String.mk p.1), p.2))
        else if c = '[' then
          if rest.head? = some ']' then some (.vlist .nil, rest.tail)
          else (parseElems fuel rest).bind (fun p => some (.vlist p.1, p.2))
        else if c = '\x7b' then
          if rest.head? = some '\x7d' then some (.vdict .pnil, rest.tail)
          else (parseMembers fuel rest).bind (fun p => some (.vdict p.1, p.2))
        else if c = 't' then
          if rest.take 3 = "rue".data then some (.vbool true, rest.drop 3) else none
        else if c = 'f' then
          if rest.take 4 = "alse".data then some (.vbool false, rest.drop 4) else none
        else if c = 'n' then
          if rest.take 3 = "ull".data then some (.vnone, rest.drop 3) else none
        else if c = 'I' then
          if rest.take 7 = "nfinity".data then some (.vfloat "inf", rest.drop 7)
          else none
        else if c = 'N' then
          if rest.take 2 = "aN".data then some (.vfloat "nan", rest.drop 2) else none
        else if c = '-' then
          if rest.take 8 = "Infinity".data then some (.vfloat "-inf", rest.drop 8)
          else parseNum c rest
        else parseNum c rest) := rfl

theorem parseElems_succ (fuel : Nat) (input : List Char) :
    parseElems (fuel + 1) input
      = (parseVal fuel input).bind (fun p =>
          if p.2.head? = some ']' then some (.cons p.1 .nil, p.2.tail)
          else if p.2.head? = some ',' then
            (parseElems fuel (skipSp p.2.tail)).bind
              (fun q => some (.cons p.1 q.1, q.2))
          else none) := rfl

theorem parseMembers_succ (fuel : Nat) (input : List Char) :
    parseMembers (fuel + 1) input
      = (if input.head? = some '"' then
          (parseStringBody (input.tail.length + 1) input.tail).bind (fun kp =>
            if kp.2.head? = some ':' then
              (parseVal fuel (skipSp kp.2.tail)).bind (fun vp =>
                if vp.2.head? = some '\x7d' then
                  some (.pcons (String.mk kp.1) vp.1 .pnil, vp.2.tail)
                else if vp.2.head? = some ',' then
                  (parseMembers fuel (skipSp vp.2.tail)).bind (fun qp =>
                    some (.pcons (String.mk kp.1) vp.1 qp.1, qp.2))
                else none)
            else none)
        else none) := rfl

theorem skipSp_space (l : List Char) : skipSp (' ' :: l) = l := rfl

theorem parseVal_digit (fuel : Nat) {c : Char} (hc : c.isDigit = true) (rest : List Char) :
    parseVal (fuel + 1) (c :: rest) = parseNum c rest := by
  rw [parseVal_cons, if_neg (ne_of_isDigit hc '"' (by decide)),
    if_neg (ne_of_isDigit hc '[' (by decide)), if_neg (ne_of_isDigit hc '\x7b' (by decide)),
    if_neg (ne_of_isDigit hc 't' (by decide)), if_neg (ne_of_isDigit hc 'f' (by decide)),
    if_neg (ne_of_isDigit hc 'n' (by decide)), if_neg (ne_of_isDigit hc 'I' (by decide)),
    if_neg (ne_of_isDigit hc 'N' (by decide)), if_neg (ne_of_isDigit hc '-' (by decide))]

theorem parseVal_neg (fuel : Nat) (rest : List Char)
    (h8 : ¬ rest.take 8 = "Infinity".data) :
    parseVal (fuel + 1) ('-' :: rest) = parseNum '-' rest := by
  rw [parseVal_cons, if_neg (by decide : ¬('-' : Char) = '"'),
    if_neg (by decide : ¬('-' : Char) = '['), if_neg (by decide : ¬('-' : Char) = '\x7b'),
    if_neg (by decide : ¬('-' : Char) = 't'), if_neg (by decide : ¬('-' : Char) = 'f'),
    if_neg (by decide : ¬('-' : Char) = 'n'), if_neg (by decide : ¬('-' : Char) = 'I'),
    if_neg (by decide : ¬('-' : Char) = 'N'), if_pos (rfl : ('-' : Char) = '-'),
    if_neg h8]

/-! ### Facts about the serialized form -/

theorem dumpVal_str (t : String) :
    dumpVal (.vstr t) = '"' :: (escapeList t.data ++ ['"']) := rfl

theorem dumpVal_int (n : Int) : dumpVal (.vint n) = intDecimal n := rfl

theorem dumpVal_float (r : String) :
    dumpVal (.vfloat r)
      = (if r = "inf" then "Infinity".data
         else if r = "-inf" then "-Infinity".data
         else if r = "nan" then "NaN".data
         else r.data) := rfl

theorem dumpVal_bool (b : Bool) :
    dumpVal (.vbool b) = (if b then "true".data else "false".data) := rfl

theorem dumpVal_list (xs : PyList) :
    dumpVal (.vlist xs) = '[' :: (dumpList xs ++ [']']) := rfl

theorem dumpVal_dict (ps : PyPairs) :
    dumpVal (.vdict ps) = '\x7b' :: (dumpPairs ps ++ ['\x7d']) := rfl

theorem dumpList_single (x : PyVal) : dumpList (.cons x .nil) = dumpVal x := rfl

theorem dumpList_cons_cons (x y : PyVal) (tl : PyList) :
    dumpList (.cons x (.cons y tl))
      = dumpVal x ++ ',' :: ' ' :: dumpList (.cons y tl) := rfl

theorem dumpPairs_single (k : String) (v : PyVal) :
    dumpPairs (.pcons k v .pnil)
      = '"' :: (escapeList k.data ++ '"' :: ':' :: ' ' :: dumpVal v) := rfl

theorem dumpPairs_cons_cons (k : String) (v : PyVal) (k2 : String) (v2 : PyVal)
    (tl : PyPairs) :
    dumpPairs (.pcons k v (.pcons k2 v2 tl))
      = '"' :: (escapeList k.data
          ++ '"' :: ':' :: ' ' :: (dumpVal v ++ ',' :: ' ' :: dumpPairs (.pcons k2 v2 tl)))
      := rfl

theorem jsonEscapeChar_length (c : Char) : 1 ≤ (jsonEscapeChar c).length := by
  unfold jsonEscapeChar
  repeat' split
  all_goals simp [hex4]

theorem escapeList_length : ∀ l : List Char, l.length ≤ (escapeList l).length := by
  intro l
  induction l with
  | nil => simp [escapeList]
  | cons c t ih =>
    simp only [escapeList, List.length_append, List.length_cons]
    have := jsonEscapeChar_length c
    omega

theorem sizeVal_pos (v : PyVal) : 1 ≤ sizeVal v := by
  cases v <;> simp [sizeVal]

theorem wfVal_float (r : String) (hwf : wfVal (.vfloat r) = true) :
    floatTokenOk r = true := hwf

theorem dumpVal_float_finite (r : String) (hok : floatTokenOk r = true) :
    dumpVal (.vfloat r) = r.data := by
  have hinf : r ≠ "inf" := fun e => by rw [e] at hok; exact absurd hok (by decide)
  have hninf : r ≠ "-inf" := fun e => by rw [e] at hok; exact absurd hok (by decide)
  have hnan : r ≠ "nan" := fun e => by rw [e] at hok; exact absurd hok (by decide)
  rw [dumpVal_float, if_neg hinf, if_neg hninf, if_neg hnan]

theorem dumpVal_head (v : PyVal) (hwf : wfVal v = true) :
    ∃ c t, dumpVal v = c :: t ∧ c ≠ ']' ∧ c ≠ '\x7d' := by
  cases v with
  | vstr s => exact ⟨'"', escapeList s.data ++ ['"'], rfl, by decide, by decide⟩
  | vint n =>
    by_cases hn : n < 0
    · refine ⟨'-', natDecimal n.natAbs, ?_, by decide, by decide⟩
      simp [dumpVal_int, intDecimal, hn]
    · obtain ⟨c, t, hct, hcd⟩ := natDecimal_head_digit n.natAbs
      refine ⟨c, t, ?_, ne_of_isDigit hcd ']' (by decide),
        ne_of_isDigit hcd '\x7d' (by decide)⟩
      simp [dumpVal_int, intDecimal, hn, hct]
  | vfloat r =>
    have hok : floatTokenOk r = true := hwf
    obtain ⟨_, _, c, t, hct, hc⟩ := floatTokenOk_parts r hok
    refine ⟨c, t, ?_, ?_, ?_⟩
    · rw [dumpVal_float_finite r hok, hct]
    · rcases hc with h | ⟨h, _⟩
      · exact ne_of_isDigit h ']' (by decide)
      · rw [h]
        decide
    · rcases hc with h | ⟨h, _⟩
      · exact ne_of_isDigit h '\x7d' (by decide)
      · rw [h]
        decide
  | vbool b =>
    cases b
    · exact ⟨'f', "alse".data, rfl, by decide, by decide⟩
    · exact ⟨'t', "rue".data, rfl, by decide, by decide⟩
  | vnone => exact absurd hwf (by decide)
  | vlist xs => exact ⟨'[', dumpList xs ++ [']'], rfl, by decide, by decide⟩
  | vdict ps => exact ⟨'\x7b', dumpPairs ps ++ ['\x7d'], rfl, by decide, by decide⟩

theorem size_le_dump :
    ∀ n : Nat,
      (∀ v, sizeVal v ≤ n → wfVal v = true → sizeVal v ≤ (dumpVal v).length) ∧
      (∀ xs, sizeList xs ≤ n → wfList xs = true →
        sizeList xs ≤ (dumpList xs).length + 1) ∧
      (∀ ps, sizePairs ps ≤ n → wfPairs ps = true →
        sizePairs ps ≤ (dumpPairs ps).length + 1) := by
  intro n
  induction n with
  | zero =>
    refine ⟨?_, ?_, ?_⟩
    · intro v hv _
      have := sizeVal_pos v
      omega
    · intro xs hx _
      cases xs with
      | nil => simp [sizeList]
      | cons x tl => simp [sizeList] at hx
    · intro ps hp _
      cases ps with
      | pnil => simp [sizePairs]
      | pcons k v tl => simp [sizePairs] at hp
  | succ n ih =>
    obtain ⟨ihv, ihl, ihp⟩ := ih
    refine ⟨?_, ?_, ?_⟩
    · intro v hv hwf
      cases v with
      | vstr s => simp [sizeVal, dumpVal_str]
      | vint n2 =>
        rw [dumpVal_int]
        have h1 : 1 ≤ (intDecimal n2).length := by
          unfold intDecimal
          by_cases hn : n2 < 0
          · rw [if_pos hn]
            simp
          · rw [if_neg hn]
            obtain ⟨c, t, hct, _⟩ := natDecimal_head_digit n2.natAbs
            simp [hct]
        simp [sizeVal]
        omega
      | vfloat r =>
        have hok : floatTokenOk r = true := hwf
        obtain ⟨_, _, c, t, hct, _⟩ := floatTokenOk_parts r hok
        rw [dumpVal_float_finite r hok, hct]
        simp [sizeVal]
      | vbool b => cases b <;> decide
      | vnone => exact absurd hwf (by decide)
      | vlist xs =>
        have hx : sizeList xs ≤ n := by
          simp [sizeVal] at hv
          omega
        have hwx : wfList xs = true := hwf
        have := ihl xs hx hwx
        rw [dumpVal_list]
        simp [sizeVal, List.length_append]
        omega
      | vdict ps =>
        have hx : sizePairs ps ≤ n := by
          simp [sizeVal] at hv
          omega
        have hwx : wfPairs ps = true := hwf
        have := ihp ps hx hwx
        rw [dumpVal_dict]
        simp [sizeVal, List.length_append]
        omega
    · intro xs hx hwfl
      cases xs with
      | nil => simp [sizeList]
      | cons x tl =>
        rcases (by simpa [wfList] using hwfl : wfVal x = true ∧ wfList tl = true)
          with ⟨hwx, hwt⟩
        have hx1 : sizeVal x ≤ n := by
          have := sizeVal_pos x
          simp [sizeList] at hx
          omega
        have hx2 : sizeList tl ≤ n := by
          have := sizeVal_pos x
          simp [sizeList] at hx
          omega
        have h1 := ihv x hx1 hwx
        cases tl with
        | nil =>
          rw [dumpList_single]
          simp [sizeList]
          omega
        | cons y tl2 =>
          have h2 := ihl (.cons y tl2) hx2 hwt
          rw [dumpList_cons_cons]
          simp [sizeList, List.length_append] at h2 ⊢
          omega
    · intro ps hp hwfp
      cases ps with
      | pnil => simp [sizePairs]
      | pcons k v tl =>
        rcases (by simpa [wfPairs, Bool.and_eq_true] using hwfp :
            (¬pairsHasKey tl k = true ∧ wfVal v = true) ∧ wfPairs tl = true)
          with ⟨⟨_, hwv⟩, hwt⟩
        have hv1 : sizeVal v ≤ n := by
          have := sizeVal_pos v
          simp [sizePairs] at hp
          omega
        have hv2 : sizePairs tl ≤ n := by
          have := sizeVal_pos v
          simp [sizePairs] at hp
          omega
        have h1 := ihv v hv1 hwv
        cases tl with
        | pnil =>
          rw [dumpPairs_single]
          simp [sizePairs, List.length_append]
          omega
        | pcons k2 v2 tl2 =>
          have h2 := ihp (.pcons k2 v2 tl2) hv2 hwt
          rw [dumpPairs_cons_cons]
          simp [sizePairs, List.length_append] at h2 ⊢
          omega

/-! ### The parser inverts the serializer -/

theorem parse_dump :
    ∀ fuel : Nat,
      (∀ v rest, wfVal v = true → sizeVal v < fuel →
        (∀ d, rest.head? = some d → numberChar d = false) →
        parseVal fuel (dumpVal v ++ rest) = some (v, rest)) ∧
      (∀ xs rest, wfList xs = true → sizeList xs < fuel → xs ≠ .nil →
        parseElems fuel (dumpList xs ++ ']' :: rest) = some (xs, rest)) ∧
      (∀ ps rest, wfPairs ps = true → sizePairs ps < fuel → ps ≠ .pnil →
        parseMembers fuel (dumpPairs ps ++ '\x7d' :: rest) = some (ps, rest)) := by
  intro fuel
  induction fuel with
  | zero =>
    refine ⟨?_, ?_, ?_⟩ <;> intro a rest h1 h2 h3 <;> omega
  | succ fuel ih =>
    obtain ⟨ihv, ihl, ihp⟩ := ih
    refine ⟨?_, ?_, ?_⟩
    · intro v rest hwf hsz hrest
      cases v with
      | vstr s =>
        rw [dumpVal_str, List.cons_append, List.append_assoc, List.singleton_append,
          parseVal_cons, if_pos rfl]
        have hlen : s.data.length < (escapeList s.data ++ '"' :: rest).length + 1 := by
          have h1 := List.length_append (escapeList s.data) ('"' :: rest)
          have h2 := escapeList_length s.data
          omega
        rw [parseStringBody_escape s.data _ rest hlen]
        rfl
      | vint n2 =>
        rw [dumpVal_int]
        obtain ⟨hall, _, _, _⟩ := intDecimal_parts n2
        by_cases hn : n2 < 0
        · have hid : intDecimal n2 = '-' :: natDecimal n2.natAbs := by
            simp [intDecimal, hn]
          obtain ⟨c, t, hct, hcd⟩ := natDecimal_head_digit n2.natAbs
          rw [hid, List.cons_append]
          have h8 : ¬ (natDecimal n2.natAbs ++ rest).take 8 = "Infinity".data := by
            rw [hct, List.cons_append]
            intro h
            exact take8_ne c hcd _ h
          rw [parseVal_neg fuel _ h8]
          have hall2 : ('-' :: natDecimal n2.natAbs).all numberChar = true := by
            rw [← hid]
            exact hall
          have htok : parseNumberToken ('-' :: natDecimal n2.natAbs)
              = some (.vint n2) := by
            rw [← hid]
            exact parseNumberToken_int n2
          exact parseNum_token '-' _ rest _ hall2 hrest htok
        · have hid : intDecimal n2 = natDecimal n2.natAbs := by
            simp [intDecimal, hn]
          obtain ⟨c, t, hct, hcd⟩ := natDecimal_head_digit n2.natAbs
          rw [hid, hct, List.cons_append, parseVal_digit fuel hcd]
          have hall2 : (c :: t).all numberChar = true := by
            rw [← hct, ← hid]
            exact hall
          have htok : parseNumberToken (c :: t) = some (.vint n2) := by
            rw [← hct, ← hid]
            exact parseNumberToken_int n2
          exact parseNum_token c t rest _ hall2 hrest htok
      | vfloat r =>
        have hok : floatTokenOk r = true := hwf
        obtain ⟨hall, hcont, c, t, hct, hc⟩ := floatTokenOk_parts r hok
        rw [dumpVal_float_finite r hok, hct, List.cons_append]
        have hall2 : (c :: t).all numberChar = true := by
          rw [← hct]
          exact hall
        have htok : parseNumberToken (c :: t) = some (.vfloat r) := by
          rw [← hct]
          exact parseNumberToken_float r hok
        rcases hc with hcd | ⟨hcm, d, t2, ht2, hdd⟩
        · rw [parseVal_digit fuel hcd]
          exact parseNum_token c t rest _ hall2 hrest htok
        · rw [hcm] at hall2 htok ⊢
          have h8 : ¬ (t ++ rest).take 8 = "Infinity".data := by
            rw [ht2, List.cons_append]
            intro h
            exact take8_ne d hdd _ h
          rw [parseVal_neg fuel _ h8]
          exact parseNum_token '-' t rest _ hall2 hrest htok
      | vbool b =>
        cases b
        · rw [dumpVal_bool, show (if false then "true".data else "false".data)
              = 'f' :: "alse".data from rfl, List.cons_append, parseVal_cons,
            if_neg (by decide : ¬('f' : Char) = '"'),
            if_neg (by decide : ¬('f' : Char) = '['),
            if_neg (by decide : ¬('f' : Char) = '\x7b'),
            if_neg (by decide : ¬('f' : Char) = 't'),
            if_pos (rfl : ('f' : Char) = 'f')]
          have h4 : (("alse").data ++ rest).take 4 = ("alse").data := by
            rw [show (4 : Nat) = ("alse".data).length from rfl]
            exact List.take_left _ _
          have hd4 : (("alse").data ++ rest).drop 4 = rest := by
            rw [show (4 : Nat) = ("alse".data).length from rfl]
            exact List.drop_left _ _
          rw [if_pos h4, hd4]
        · rw [dumpVal_bool, show (if true then "true".data else "false".data)
              = 't' :: "rue".data from rfl, List.cons_append, parseVal_cons,
            if_neg (by decide : ¬('t' : Char) = '"'),
            if_neg (by decide : ¬('t' : Char) = '['),
            if_neg (by decide : ¬('t' : Char) = '\x7b'),
            if_pos (rfl : ('t' : Char) = 't')]
          have h3 : (("rue").data ++ rest).take 3 = ("rue").data := by
            rw [show (3 : Nat) = ("rue".data).length from rfl]
            exact List.take_left _ _
          have hd3 : (("rue").data ++ rest).drop 3 = rest := by
            rw [show (3 : Nat) = ("rue".data).length from rfl]
            exact List.drop_left _ _
          rw [if_pos h3, hd3]
      | vnone => exact absurd hwf (by decide)
      | vlist xs =>
        rw [dumpVal_list, List.cons_append, List.append_assoc, List.singleton_append,
          parseVal_cons, if_neg (by decide : ¬('[' : Char) = '"'), if_pos rfl]
        cases xs with
        | nil =>
          rw [show dumpList .nil = ([] : List Char) from rfl, List.nil_append]
          simp only [List.head?_cons, List.tail_cons]
          rw [if_pos trivial]
        | cons x tl =>
          have hwl : wfList (.cons x tl) = true := hwf
          rcases (by simpa [wfList] using hwl : wfVal x = true ∧ wfList tl = true)
            with ⟨hwx, _⟩
          obtain ⟨c, t, hct, hne1, _⟩ := dumpVal_head x hwx
          have hhead : ¬ (dumpList (.cons x tl) ++ ']' :: rest).head? = some ']' := by
            cases tl with
            | nil =>
              rw [dumpList_single, hct]
              simp [hne1]
            | cons y tl2 =>
              rw [dumpList_cons_cons, hct]
              simp [hne1]
          rw [if_neg hhead]
          have hsz2 : sizeList (.cons x tl) < fuel := by
            simp [sizeVal] at hsz
            omega
          rw [ihl (.cons x tl) rest hwl hsz2 (fun h => PyList.noConfusion h)]
          rfl
      | vdict ps =>
        rw [dumpVal_dict, List.cons_append, List.append_assoc, List.singleton_append,
          parseVal_cons, if_neg (by decide : ¬('\x7b' : Char) = '"'),
          if_neg (by decide : ¬('\x7b' : Char) = '['), if_pos rfl]
        cases ps with
        | pnil =>
          rw [show dumpPairs .pnil = ([] : List Char) from rfl, List.nil_append]
          simp only [List.head?_cons, List.tail_cons]
          rw [if_pos trivial]
        | pcons k v tl =>
          have hwp : wfPairs (.pcons k v tl) = true := hwf
          have hhead : ¬ (dumpPairs (.pcons k v tl) ++ '\x7d' :: rest).head?
              = some '\x7d' := by
            cases tl with
            | pnil =>
              rw [dumpPairs_single]
              simp
            | pcons k2 v2 tl2 =>
              rw [dumpPairs_cons_cons]
              simp
          rw [if_neg hhead]
          have hsz2 : sizePairs (.pcons k v tl) < fuel := by
            simp [sizeVal] at hsz
            omega
          rw [ihp (.pcons k v tl) rest hwp hsz2 (fun h => PyPairs.noConfusion h)]
          rfl
    · intro xs rest hwfl hsz hne
      cases xs with
      | nil => exact absurd rfl hne
      | cons x tl =>
        rcases (by simpa [wfList] using hwfl : wfVal x = true ∧ wfList tl = true)
          with ⟨hwx, hwt⟩
        rw [parseElems_succ]
        cases tl with
        | nil =>
          rw [dumpList_single]
          have hx := ihv x (']' :: rest) hwx
            (by simp [sizeList] at hsz; omega)
            (by intro d hd
                have hdq : (']' : Char) = d := by simpa using hd
                rw [← hdq]
                decide)
          rw [hx]
          rfl
        | cons y tl2 =>
          rw [dumpList_cons_cons, List.append_assoc, List.cons_append, List.cons_append]
          have hx := ihv x (',' :: ' ' :: (dumpList (.cons y tl2) ++ ']' :: rest)) hwx
            (by have := sizeVal_pos x
                simp [sizeList] at hsz
                omega)
            (by intro d hd
                have hdq : ((',') : Char) = d := by simpa using hd
                rw [← hdq]
                decide)
          rw [hx]
          show (parseElems fuel (dumpList (PyList.cons y tl2) ++ ']' :: rest)).bind
              (fun q => some (PyList.cons x q.1, q.2))
              = some (PyList.cons x (PyList.cons y tl2), rest)
          rw [ihl (.cons y tl2) rest hwt
            (by have := sizeVal_pos x
                simp [sizeList] at hsz ⊢
                omega)
            (fun h => PyList.noConfusion h)]
          rfl
    · intro ps rest hwfp hsz hne
      cases ps with
      | pnil => exact absurd rfl hne
      | pcons k v tl =>
        rcases (by simpa [wfPairs, Bool.and_eq_true] using hwfp :
            (¬pairsHasKey tl k = true ∧ wfVal v = true) ∧ wfPairs tl = true)
          with ⟨⟨_, hwv⟩, hwt⟩
        rw [parseMembers_succ]
        cases tl with
        | pnil =>
          rw [dumpPairs_single]
          simp only [List.cons_append, List.append_assoc]
          simp only [List.head?_cons, List.tail_cons]
          rw [if_pos trivial]
          have hlen : k.data.length
              < ((escapeList k.data
                  ++ '"' :: ':' :: ' ' :: (dumpVal v ++ '\x7d' :: rest)) : List Char).length
                + 1 := by
            have h1 := List.length_append (escapeList k.data)
              ('"' :: ':' :: ' ' :: (dumpVal v ++ '\x7d' :: rest))
            have h2 := escapeList_length k.data
            omega
          rw [parseStringBody_escape k.data _ _ hlen]
          show (parseVal fuel (dumpVal v ++ '\x7d' :: rest)).bind (fun vp =>
              if vp.2.head? = some '\x7d' then
                some (PyPairs.pcons (String.mk k.data) vp.1 PyPairs.pnil, vp.2.tail)
              else if vp.2.head? = some ',' then
                (parseMembers fuel (skipSp vp.2.tail)).bind (fun qp =>
                  some (PyPairs.pcons (String.mk k.data) vp.1 qp.1, qp.2))
              else none) = some (PyPairs.pcons k v PyPairs.pnil, rest)
          rw [ihv v ('\x7d' :: rest) hwv
            (by simp [sizePairs] at hsz; omega)
            (by intro d hd
                have hdq : (('\x7d') : Char) = d := by simpa using hd
                rw [← hdq]
                decide)]
          rfl
        | pcons k2 v2 tl2 =>
          rw [dumpPairs_cons_cons]
          simp only [List.cons_append, List.append_assoc]
          simp only [List.head?_cons, List.tail_cons]
          rw [if_pos trivial]
          have hlen : k.data.length
              < ((escapeList k.data
                  ++ '"' :: ':' :: ' '
                    :: (dumpVal v ++ ',' :: ' '
                      :: (dumpPairs (.pcons k2 v2 tl2) ++ '\x7d' :: rest))) :
                    List Char).length + 1 := by
            have h1 := List.length_append (escapeList k.data)
              ('"' :: ':' :: ' ' :: (dumpVal v ++ ',' :: ' '
                :: (dumpPairs (.pcons k2 v2 tl2) ++ '\x7d' :: rest)))
            have h2 := escapeList_length k.data
            omega
          rw [parseStringBody_escape k.data _ _ hlen]
          show (parseVal fuel (dumpVal v ++ ',' :: ' '
              :: (dumpPairs (PyPairs.pcons k2 v2 tl2) ++ '\x7d' :: rest))).bind (fun vp =>
              if vp.2.head? = some '\x7d' then
                some (PyPairs.pcons (String.mk k.data) vp.1 PyPairs.pnil, vp.2.tail)
              else if vp.2.head? = some ',' then
                (parseMembers fuel (skipSp vp.2.tail)).bind (fun qp =>
                  some (PyPairs.pcons (String.mk k.data) vp.1 qp.1, qp.2))
              else none) = some (PyPairs.pcons k v (PyPairs.pcons k2 v2 tl2), rest)
          rw [ihv v (',' :: ' ' :: (dumpPairs (.pcons k2 v2 tl2) ++ '\x7d' :: rest)) hwv
            (by have := sizeVal_pos v
                simp [sizePairs] at hsz
                omega)
            (by intro d hd
                have hdq : ((',') : Char) = d := by simpa using hd
                rw [← hdq]
                decide)]
          show (parseMembers fuel (dumpPairs (PyPairs.pcons k2 v2 tl2) ++ '\x7d' :: rest)).bind
              (fun qp => some (PyPairs.pcons (String.mk k.data) v qp.1, qp.2))
              = some (PyPairs.pcons k v (PyPairs.pcons k2 v2 tl2), rest)
          rw [ihp (.pcons k2 v2 tl2) rest hwt
            (by have := sizeVal_pos v
                simp [sizePairs] at hsz ⊢
                omega)
            (fun h => PyPairs.noConfusion h)]
          rfl

theorem jsonLoads_dumps (v : PyVal) (hwf : wfVal v = true) :
    jsonLoads (String.mk (dumpVal v)) = some v := by
  have hb : sizeVal v ≤ (dumpVal v).length :=
    (size_le_dump (sizeVal v)).1 v (le_refl _) hwf
  have h := (parse_dump ((dumpVal v).length + 1)).1 v [] hwf (by omega)
    (by intro d hd; simp at hd)
  rw [List.append_nil] at h
  have h2 : parseVal ((String.mk (dumpVal v)).length + 1) (String.mk (dumpVal v)).data
      = some (v, []) := h
  unfold jsonLoads
  rw [h2]

theorem deserializeRow_serializeVal (v : PyVal) (e : Option Int) (default : PyVal)
    (hwf : wfVal v = true)
    (hdot : ∀ r, v = .vfloat r → r.data.contains '.' = true) :
    deserializeRow ⟨(serializeVal v).1, (serializeVal v).2, e⟩ default = v := by
  cases v with
  | vdict ps =>
    show (jsonLoads (String.mk (dumpVal (.vdict ps)))).getD default = PyVal.vdict ps
    rw [jsonLoads_dumps (.vdict ps) hwf]
    rfl
  | vlist xs =>
    show (jsonLoads (String.mk (dumpVal (.vlist xs)))).getD default = PyVal.vlist xs
    rw [jsonLoads_dumps (.vlist xs) hwf]
    rfl
  | vbool b => cases b <;> rfl
  | vint n =>
    obtain ⟨_, hdotf, _, _⟩ := intDecimal_parts n
    show (if (intDecimal n).contains '.' = true then
            (if floatTokenOk (String.mk (intDecimal n)) = true then
              PyVal.vfloat (String.mk (intDecimal n))
            else default)
          else
            match pyIntParse (String.mk (intDecimal n)) with
            | some m => PyVal.vint m
            | none => default) = PyVal.vint n
    rw [hdotf, if_neg Bool.false_ne_true, pyIntParse_intDecimal]
  | vfloat r =>
    have hok : floatTokenOk r = true := hwf
    have hdr : r.data.contains '.' = true := hdot r rfl
    show (if r.data.contains '.' = true then
            (if floatTokenOk r = true then PyVal.vfloat r else default)
          else
            match pyIntParse r with
            | some m => PyVal.vint m
            | none => default) = PyVal.vfloat r
    rw [hdr, hok]
    simp
  | vstr t => rfl
  | vnone => exact absurd hwf (by decide)

/-- C7: corrected round-trip.  `set` followed by `get` returns the stored
value for every well-formed value of the five supported types, provided a
top-level float is excluded whose `repr` carries no decimal point (such as
`1e+30`): that row is stored under the "number" tag, the dot test routes it
to `int()`, the conversion raises and `get` returns the default instead of
the stored value (see `c7_counterexample`).  With the no-dot top-level
float excluded, the round-trip is exact for any TTL-free `set`, any prior
database and any read time. -/
theorem set_get_roundtrip (db : MemDB) (now now2 : Int) (key : String)
    (v default : PyVal) (hwf : wfVal v = true)
    (hdot : ∀ r, v = .vfloat r → r.data.contains '.' = true) :
    memGet (memSet db now key v none) now2 key default
      = some (v, memSet db now key v none) := by
  have hget : assocGet (memSet db now key v none).rows key
      = some ⟨(serializeVal v).1, (serializeVal v).2, none⟩ :=
    assocGet_assocSet_self db.rows key _
  unfold memGet
  rw [hget]
  show some (deserializeRow ⟨(serializeVal v).1, (serializeVal v).2, none⟩ default,
      memSet db now key v none) = some (v, memSet db now key v none)
  rw [deserializeRow_serializeVal v none default hwf hdot]

/-- C7 witness: the corrected round-trip, instantiated at a nested
dict-of-list value containing an int and a dotted float. -/
theorem c7_witness :
    wfVal (.vdict (.pcons "a"
        (.vlist (.cons (.vint 1) (.cons (.vfloat "2.5") .nil))) .pnil)) = true
    ∧ memGet (memSet memEmpty 0 "k"
          (.vdict (.pcons "a"
            (.vlist (.cons (.vint 1) (.cons (.vfloat "2.5") .nil))) .pnil)) none)
        7 "k" .vnone
      = some (.vdict (.pcons "a"
            (.vlist (.cons (.vint 1) (.cons (.vfloat "2.5") .nil))) .pnil),
          memSet memEmpty 0 "k"
            (.vdict (.pcons "a"
              (.vlist (.cons (.vint 1) (.cons (.vfloat "2.5") .nil))) .pnil)) none) :=
  ⟨by decide,
    set_get_roundtrip memEmpty 0 7 "k"
      (.vdict (.pcons "a"
        (.vlist (.cons (.vint 1) (.cons (.vfloat "2.5") .nil))) .pnil))
      .vnone (by decide) (fun r hr => PyVal.noConfusion hr)⟩

end Jarvis
